import Mathlib

/-! A verification development for the todo-list backend.

Shallow embedding of `internal/domain`, `internal/repository`,
`internal/service` and `internal/usecase`.

Conventions of the embedding:

* `time.Time` is an instant, an integer number of nanoseconds since the Unix
  epoch; `After`, `Before` and `Add` are the comparisons and the shift of
  instants.
* `*domain.Task` is a task value. A Go `map[string]*domain.Task` is the list
  of its entries in one iteration order; every entry is stored under the key
  `task.ID` (the only key the source ever uses), so the key is read off the
  entry.
* `time.Now()` and `generateID()` are inputs of the functions that call them.
* A Go `string` is Unicode text, a Lean `String`; byte sequences that are not
  valid UTF-8 are outside the embedding.
* The content of a file is told by what `json.Unmarshal` reads from it.
  `json.MarshalIndent` fails where `Time.MarshalJSON` does, on a time whose
  year is not within 0 and 9999; what it writes of Unicode text and of instants
  within that range is read back as the same text and the same instants.
* `sort.Slice` is the insertion sort that Go runs on slices of at most twelve
  elements. What is proved of sorted lists rests on two facts only, which hold
  of `sort.Slice` at every length when `less` is a strict weak order: the
  result is a permutation of the input, and no element of it is `less` than an
  element that stands before it.
-/

namespace TodoList

/-! ## package time -/

/-- Instants of `time.Time`: nanoseconds since the Unix epoch. -/
abbrev Time := Int

/-- Go `t.After(u)`. -/
def Time.After (t u : Time) : Bool := decide (u < t)

/-- Go `t.Before(u)`. -/
def Time.Before (t u : Time) : Bool := decide (t < u)

/-- Go `time.Hour`, in nanoseconds. -/
def Hour : Int := 3600 * 1000000000

/-- Go `t.Add(d)`. -/
def Time.Add (t : Time) (d : Int) : Time := t + d

/-- A `*time.Location` with a fixed offset east of UTC, in nanoseconds. -/
structure Location where
  offset : Int
  deriving DecidableEq, Repr

/-- The instant `time.Date(now.Year(), now.Month(), now.Day(), 0, 0, 0, 0, loc)`:
midnight of the calendar day of `now` in `loc`. -/
def dayStart (loc : Location) (now : Time) : Time :=
  now - (now + loc.offset) % (24 * Hour)

/-! ## package strings -/

/-- Go `unicode.IsSpace`. -/
def isSpace (c : Char) : Bool :=
  c = '\t' || c = '\n' || c.val = 0x0B || c.val = 0x0C || c = '\r' || c = ' ' ||
  c.val = 0x85 || c.val = 0xA0 || c.val = 0x1680 ||
  (0x2000 ≤ c.val && c.val ≤ 0x200A) ||
  c.val = 0x2028 || c.val = 0x2029 || c.val = 0x202F || c.val = 0x205F || c.val = 0x3000

/-- Go `strings.TrimSpace`: drop leading and trailing white space. -/
def TrimSpace (s : String) : String :=
  ⟨((s.data.dropWhile isSpace).reverse.dropWhile isSpace).reverse⟩

/-! ## package sort -/

/-- Inner loop of Go's `insertionSortLessFunc`: the new element `x` moves left
past every element it is `less` than. The sorted prefix is held reversed, its
last element first. -/
def insertLeft {α : Type} (less : α → α → Bool) (x : α) : List α → List α
  | [] => [x]
  | y :: ys => if less x y then y :: insertLeft less x ys else x :: y :: ys

/-- Go `sort.Slice(data, less)` with `less` read on elements: elements are
taken left to right and each is moved into the sorted prefix. -/
def sortSlice {α : Type} (less : α → α → Bool) (data : List α) : List α :=
  (data.foldl (fun acc x => insertLeft less x acc) []).reverse

/-- What `sort.Slice` asks of its `less`: a strict weak order. -/
structure StrictWeak {α : Type} (less : α → α → Bool) : Prop where
  asymm : ∀ a b, less a b = true → less b a = false
  negTrans : ∀ a b c, less a b = false → less b c = false → less a c = false

/-! ## package domain -/

/-- Go `type Priority string`. -/
abbrev Priority := String

def LowPriority : Priority := "low"
def MediumPriority : Priority := "medium"
def HighPriority : Priority := "high"

/-- Go `type TaskStatus string`. -/
abbrev TaskStatus := String

def ActiveTask : TaskStatus := "active"
def CompletedTask : TaskStatus := "completed"

/-- Go `domain.Task`; `DueDate` is `none` for a nil pointer. -/
structure Task where
  ID : String
  Title : String
  Description : String
  Status : TaskStatus
  Priority : Priority
  DueDate : Option Time
  CreatedAt : Time
  UpdatedAt : Time
  deriving DecidableEq, Repr

/-- Go `NewTask`; `id` is the result of `generateID()`, `now` of `time.Now()`. -/
def NewTask (title description : String) (id : String) (now : Time) : Task :=
  { ID := id, Title := title, Description := description,
    Status := ActiveTask, Priority := MediumPriority, DueDate := none,
    CreatedAt := now, UpdatedAt := now }

def Task.MarkComplete (t : Task) (now : Time) : Task :=
  { t with Status := CompletedTask, UpdatedAt := now }

def Task.MarkActive (t : Task) (now : Time) : Task :=
  { t with Status := ActiveTask, UpdatedAt := now }

def Task.SetPriority (t : Task) (priority : TodoList.Priority) (now : Time) : Task :=
  { t with Priority := priority, UpdatedAt := now }

def Task.SetDueDate (t : Task) (dueDate : Option Time) (now : Time) : Task :=
  { t with DueDate := dueDate, UpdatedAt := now }

def Task.IsOverdue (t : Task) (now : Time) : Bool :=
  match t.DueDate with
  | none => false
  | some d => if t.Status == CompletedTask then false else Time.After now d

/-! ## errors -/

/-- The errors the packages build: `fmt.Errorf("task with id %s not found", id)`,
`errors.New("task title cannot be empty")`, and an error handed back by the
operating system or by `encoding/json`. -/
inductive TaskError where
  | notFound (id : String)
  | emptyTitle
  | io
  deriving DecidableEq, Repr

/-! ## Go maps keyed by task id -/

/-- A `map[string]*domain.Task` whose entries are stored under their own `ID`,
as the list of entries in one iteration order. -/
abbrev TaskMap := List Task

/-- Go `task, exists := m[id]`. -/
def TaskMap.lookup (m : TaskMap) (id : String) : Option Task :=
  m.find? (fun t => t.ID == id)

/-- Go `m[task.ID] = task`. -/
def TaskMap.store (m : TaskMap) (task : Task) : TaskMap :=
  if (TaskMap.lookup m task.ID).isSome then
    m.map (fun t => if t.ID == task.ID then task else t)
  else m ++ [task]

/-- Go `delete(m, id)`. -/
def TaskMap.remove (m : TaskMap) (id : String) : TaskMap :=
  m.filter (fun t => t.ID != id)

/-- The keys of a Go map are pairwise different. -/
def TaskMap.UniqueIDs (m : TaskMap) : Prop := (m.map (fun t => t.ID)).Nodup

instance (m : TaskMap) : Decidable (TaskMap.UniqueIDs m) := by
  unfold TaskMap.UniqueIDs; infer_instance

/-! ## package repository -/

/-- Go interface `repository.TaskRepository` over a backend with state `σ`. A
mutating method hands back its error (or `none`) and the state it leaves. -/
structure TaskRepository (σ : Type) where
  Create : σ → Task → Option TaskError × σ
  GetByID : σ → String → Except TaskError Task
  GetAll : σ → Except TaskError (List Task)
  GetByStatus : σ → TaskStatus → Except TaskError (List Task)
  GetByPriority : σ → Priority → Except TaskError (List Task)
  GetByDateRange : σ → Time → Time → Except TaskError (List Task)
  Update : σ → Task → Option TaskError × σ
  Delete : σ → String → Option TaskError × σ

/-- The comparison every backend sorts its reads with: newest first. -/
def newestFirst (a b : Task) : Bool := Time.After a.CreatedAt b.CreatedAt

/-! ### memory.go -/

structure MemoryTaskRepository where
  tasks : TaskMap
  deriving DecidableEq, Repr

def NewMemoryTaskRepository : MemoryTaskRepository := { tasks := [] }

namespace MemoryTaskRepository

def Create (r : MemoryTaskRepository) (task : Task) : Option TaskError × MemoryTaskRepository :=
  (none, { tasks := TaskMap.store r.tasks task })

def GetByID (r : MemoryTaskRepository) (id : String) : Except TaskError Task :=
  match TaskMap.lookup r.tasks id with
  | none => .error (.notFound id)
  | some task => .ok task

def GetAll (r : MemoryTaskRepository) : Except TaskError (List Task) :=
  .ok (sortSlice newestFirst r.tasks)

def GetByStatus (r : MemoryTaskRepository) (status : TaskStatus) :
    Except TaskError (List Task) :=
  .ok (sortSlice newestFirst (r.tasks.filter (fun task => task.Status == status)))

def GetByPriority (r : MemoryTaskRepository) (priority : Priority) :
    Except TaskError (List Task) :=
  .ok (sortSlice newestFirst (r.tasks.filter (fun task => task.Priority == priority)))

def GetByDateRange (r : MemoryTaskRepository) (frm upto : Time) :
    Except TaskError (List Task) :=
  .ok (sortSlice newestFirst
    (r.tasks.filter (fun task => Time.After task.CreatedAt frm && Time.Before task.CreatedAt upto)))

def Update (r : MemoryTaskRepository) (task : Task) : Option TaskError × MemoryTaskRepository :=
  match TaskMap.lookup r.tasks task.ID with
  | none => (some (.notFound task.ID), r)
  | some _ => (none, { tasks := TaskMap.store r.tasks task })

def Delete (r : MemoryTaskRepository) (id : String) : Option TaskError × MemoryTaskRepository :=
  match TaskMap.lookup r.tasks id with
  | none => (some (.notFound id), r)
  | some _ => (none, { tasks := TaskMap.remove r.tasks id })

/-- The in-memory backend as a `TaskRepository`. -/
def backend : TaskRepository MemoryTaskRepository :=
  { Create := Create, GetByID := GetByID, GetAll := GetAll, GetByStatus := GetByStatus,
    GetByPriority := GetByPriority, GetByDateRange := GetByDateRange,
    Update := Update, Delete := Delete }

end MemoryTaskRepository

/-! ### file.go -/

/-- Content of a file of the data directory: no bytes at all, bytes from which
`json.Unmarshal` reads the given task records, in file order, or bytes that
`json.Unmarshal` rejects, such as the remains of a write that was cut short. -/
inductive FileData where
  | empty
  | records (tasks : List Task)
  | truncated
  deriving DecidableEq, Repr

/-- The part of the file system the file backend touches: the snapshot
`tasks.json`, its sibling `tasks.json.tmp` (`none`: no such file), and whether
the next `os.WriteFile` and `os.Rename` fail. -/
structure Disk where
  canonical : Option FileData
  temp : Option FileData
  writeFails : Bool
  renameFails : Bool
  deriving DecidableEq, Repr

structure FileTaskRepository where
  tasks : TaskMap
  disk : Disk
  deriving DecidableEq, Repr

/-- First instant of the year 0 in UTC, 0000-01-01T00:00:00Z. -/
def yearZero : Time := -62167219200000000000

/-- First instant of the year 10000 in UTC, 10000-01-01T00:00:00Z. -/
def yearTenThousand : Time := 253402300800000000000

/-- Go `Time.MarshalJSON` returns no error: the year of the time, read in UTC,
is within 0 and 9999. -/
def Time.marshalable (t : Time) : Bool :=
  decide (yearZero ≤ t) && decide (t < yearTenThousand)

/-- The three times of a task can be written by `Time.MarshalJSON`; a nil
`DueDate` is left out of the record (`omitempty`). -/
def Task.marshalable (t : Task) : Bool :=
  Time.marshalable t.CreatedAt && Time.marshalable t.UpdatedAt &&
    (match t.DueDate with
     | none => true
     | some d => Time.marshalable d)

/-- Go `json.MarshalIndent(tasks, "", "  ")`: the error of the first time that
cannot be written, else bytes from which `json.Unmarshal` reads the records
back. -/
def MarshalIndent (tasks : List Task) : Except TaskError FileData :=
  if tasks.all Task.marshalable then .ok (.records tasks) else .error .io

/-- Go `json.Unmarshal(data, &tasks)`. -/
def Unmarshal : FileData → Except TaskError (List Task)
  | .records tasks => .ok tasks
  | .empty => .error .io
  | .truncated => .error .io

/-- The comparison `saveToFile` sorts with: oldest first. -/
def oldestFirst (a b : Task) : Bool := Time.Before a.CreatedAt b.CreatedAt

namespace FileTaskRepository

def loadFromFile (r : FileTaskRepository) : Option TaskError × FileTaskRepository :=
  match r.disk.canonical with
  | none => (none, r)
  | some .empty => (none, r)
  | some data =>
    match Unmarshal data with
    | .error err => (some err, r)
    | .ok tasks => (none, { r with tasks := tasks.foldl TaskMap.store [] })

/-- Go `saveToFile`. A failed `json.MarshalIndent` returns before a file is
touched; a failed `os.WriteFile` leaves the temporary file cut short and the
snapshot alone; a failed `os.Rename` leaves both files in place. -/
def saveToFile (r : FileTaskRepository) : Option TaskError × FileTaskRepository :=
  let tasks := sortSlice oldestFirst r.tasks
  match MarshalIndent tasks with
  | .error err => (some err, r)
  | .ok data =>
    if r.disk.writeFails then
      (some .io, { r with disk := { r.disk with temp := some .truncated } })
    else if r.disk.renameFails then
      (some .io, { r with disk := { r.disk with temp := some data } })
    else
      (none, { r with disk := { r.disk with canonical := some data, temp := none } })

def Create (r : FileTaskRepository) (task : Task) : Option TaskError × FileTaskRepository :=
  saveToFile { r with tasks := TaskMap.store r.tasks task }

def GetByID (r : FileTaskRepository) (id : String) : Except TaskError Task :=
  match TaskMap.lookup r.tasks id with
  | none => .error (.notFound id)
  | some task => .ok task

def GetAll (r : FileTaskRepository) : Except TaskError (List Task) :=
  .ok (sortSlice newestFirst r.tasks)

def GetByStatus (r : FileTaskRepository) (status : TaskStatus) :
    Except TaskError (List Task) :=
  .ok (sortSlice newestFirst (r.tasks.filter (fun task => task.Status == status)))

def GetByPriority (r : FileTaskRepository) (priority : Priority) :
    Except TaskError (List Task) :=
  .ok (sortSlice newestFirst (r.tasks.filter (fun task => task.Priority == priority)))

def GetByDateRange (r : FileTaskRepository) (frm upto : Time) :
    Except TaskError (List Task) :=
  .ok (sortSlice newestFirst
    (r.tasks.filter (fun task => Time.After task.CreatedAt frm && Time.Before task.CreatedAt upto)))

def Update (r : FileTaskRepository) (task : Task) : Option TaskError × FileTaskRepository :=
  match TaskMap.lookup r.tasks task.ID with
  | none => (some (.notFound task.ID), r)
  | some _ => saveToFile { r with tasks := TaskMap.store r.tasks task }

def Delete (r : FileTaskRepository) (id : String) : Option TaskError × FileTaskRepository :=
  match TaskMap.lookup r.tasks id with
  | none => (some (.notFound id), r)
  | some _ => saveToFile { r with tasks := TaskMap.remove r.tasks id }

/-- The file backend as a `TaskRepository`. -/
def backend : TaskRepository FileTaskRepository :=
  { Create := Create, GetByID := GetByID, GetAll := GetAll, GetByStatus := GetByStatus,
    GetByPriority := GetByPriority, GetByDateRange := GetByDateRange,
    Update := Update, Delete := Delete }

end FileTaskRepository

/-- Go `NewFileTaskRepository`, on a data directory that exists. -/
def NewFileTaskRepository (disk : Disk) : Except TaskError FileTaskRepository :=
  match FileTaskRepository.loadFromFile { tasks := [], disk := disk } with
  | (some err, _) => .error err
  | (none, repo) => .ok repo

/-! ### postgres.go -/

/-- The table `tasks` behind the `*sql.DB`: its rows, each read back by
`queryTasks` as the task it was written from. Of the methods, the reads
`GetAll` and `GetByDateRange` are embedded. -/
structure PostgresTaskRepository where
  rows : List Task
  deriving DecidableEq, Repr

namespace PostgresTaskRepository

/-- Go `queryTasks` on the rows a `SELECT` produced. -/
def queryTasks (selected : List Task) : Except TaskError (List Task) :=
  .ok selected

/-- SQL `ORDER BY created_at DESC`. -/
def orderByCreatedAtDesc (selected : List Task) : List Task :=
  sortSlice newestFirst selected

def GetAll (r : PostgresTaskRepository) : Except TaskError (List Task) :=
  queryTasks (orderByCreatedAtDesc r.rows)

/-- SQL `WHERE created_at BETWEEN $1 AND $2`: both ends belong to the range. -/
def GetByDateRange (r : PostgresTaskRepository) (frm upto : Time) :
    Except TaskError (List Task) :=
  queryTasks (orderByCreatedAtDesc
    (r.rows.filter (fun row => decide (frm ≤ row.CreatedAt) && decide (row.CreatedAt ≤ upto))))

end PostgresTaskRepository

/-! ## package service -/

namespace TaskService

def CreateTask {σ : Type} (repo : TaskRepository σ) (s : σ) (title description : String)
    (id : String) (now : Time) : Except TaskError Task × σ :=
  if TrimSpace title == "" then (.error .emptyTitle, s)
  else
    let task := NewTask title description id now
    match repo.Create s task with
    | (some err, s1) => (.error err, s1)
    | (none, s1) => (.ok task, s1)

def GetAllTasks {σ : Type} (repo : TaskRepository σ) (s : σ) : Except TaskError (List Task) :=
  repo.GetAll s

def GetTaskByID {σ : Type} (repo : TaskRepository σ) (s : σ) (id : String) :
    Except TaskError Task :=
  repo.GetByID s id

def GetTasksByStatus {σ : Type} (repo : TaskRepository σ) (s : σ) (status : TaskStatus) :
    Except TaskError (List Task) :=
  repo.GetByStatus s status

def GetTasksByPriority {σ : Type} (repo : TaskRepository σ) (s : σ) (priority : Priority) :
    Except TaskError (List Task) :=
  repo.GetByPriority s priority

def GetOverdueTasks {σ : Type} (repo : TaskRepository σ) (s : σ) (now : Time) :
    Except TaskError (List Task) :=
  match repo.GetAll s with
  | .error err => .error err
  | .ok allTasks => .ok (allTasks.filter (fun task => task.IsOverdue now))

def GetTodayTasks {σ : Type} (repo : TaskRepository σ) (s : σ) (now : Time) (loc : Location) :
    Except TaskError (List Task) :=
  let startOfDay := dayStart loc now
  let endOfDay := Time.Add startOfDay (24 * Hour)
  match repo.GetAll s with
  | .error err => .error err
  | .ok allTasks =>
    .ok (allTasks.filter (fun task =>
      match task.DueDate with
      | none => false
      | some d => Time.After d startOfDay && Time.Before d endOfDay))

def GetWeekTasks {σ : Type} (repo : TaskRepository σ) (s : σ) (now : Time) :
    Except TaskError (List Task) :=
  let weekFromNow := Time.Add now (7 * 24 * Hour)
  match repo.GetAll s with
  | .error err => .error err
  | .ok allTasks =>
    .ok (allTasks.filter (fun task =>
      match task.DueDate with
      | none => false
      | some d => Time.After d now && Time.Before d weekFromNow))

def UpdateTask {σ : Type} (repo : TaskRepository σ) (s : σ) (id title description : String)
    (now : Time) : Except TaskError Task × σ :=
  match repo.GetByID s id with
  | .error err => (.error err, s)
  | .ok task =>
    if TrimSpace title == "" then (.error .emptyTitle, s)
    else
      let task := { task with Title := title, Description := description, UpdatedAt := now }
      match repo.Update s task with
      | (some err, s1) => (.error err, s1)
      | (none, s1) => (.ok task, s1)

def MarkTaskComplete {σ : Type} (repo : TaskRepository σ) (s : σ) (id : String) (now : Time) :
    Except TaskError Task × σ :=
  match repo.GetByID s id with
  | .error err => (.error err, s)
  | .ok task =>
    let task := task.MarkComplete now
    match repo.Update s task with
    | (some err, s1) => (.error err, s1)
    | (none, s1) => (.ok task, s1)

def MarkTaskActive {σ : Type} (repo : TaskRepository σ) (s : σ) (id : String) (now : Time) :
    Except TaskError Task × σ :=
  match repo.GetByID s id with
  | .error err => (.error err, s)
  | .ok task =>
    let task := task.MarkActive now
    match repo.Update s task with
    | (some err, s1) => (.error err, s1)
    | (none, s1) => (.ok task, s1)

def SetTaskPriority {σ : Type} (repo : TaskRepository σ) (s : σ) (id : String)
    (priority : Priority) (now : Time) : Except TaskError Task × σ :=
  match repo.GetByID s id with
  | .error err => (.error err, s)
  | .ok task =>
    let task := task.SetPriority priority now
    match repo.Update s task with
    | (some err, s1) => (.error err, s1)
    | (none, s1) => (.ok task, s1)

def SetTaskDueDate {σ : Type} (repo : TaskRepository σ) (s : σ) (id : String)
    (dueDate : Option Time) (now : Time) : Except TaskError Task × σ :=
  match repo.GetByID s id with
  | .error err => (.error err, s)
  | .ok task =>
    let task := task.SetDueDate dueDate now
    match repo.Update s task with
    | (some err, s1) => (.error err, s1)
    | (none, s1) => (.ok task, s1)

def DeleteTask {σ : Type} (repo : TaskRepository σ) (s : σ) (id : String) :
    Option TaskError × σ :=
  repo.Delete s id

end TaskService

/-! ## package usecase -/

structure CreateTaskRequest where
  Title : String
  Description : String
  Priority : String
  DueDate : Option Time
  deriving DecidableEq, Repr

structure TaskFilter where
  Status : String
  Priority : String
  DateType : String
  deriving DecidableEq, Repr

structure TaskSort where
  Field : String
  Order : String
  deriving DecidableEq, Repr

namespace TaskUseCase

def intersectTasks (tasks1 tasks2 : List Task) : List Task :=
  let taskMap : TaskMap := tasks1.foldl TaskMap.store []
  tasks2.filter (fun task => (TaskMap.lookup taskMap task.ID).isSome)

/-- The map literal `priorityOrder` of `sortTasks`, read at a key; a key that
is not in the map reads as `0`. -/
def priorityOrder (p : Priority) : Int :=
  if p == HighPriority then 3
  else if p == MediumPriority then 2
  else if p == LowPriority then 1
  else 0

/-- The `less` closure of the `"priority"` case. -/
def lessPriority (order : String) (a b : Task) : Bool :=
  if order == "desc" then decide (priorityOrder a.Priority > priorityOrder b.Priority)
  else decide (priorityOrder a.Priority < priorityOrder b.Priority)

/-- The `less` closure of the `"due_date"` case. -/
def lessDueDate (order : String) (a b : Task) : Bool :=
  match a.DueDate, b.DueDate with
  | none, none => false
  | none, some _ => false
  | some _, none => true
  | some da, some db => if order == "desc" then Time.After da db else Time.Before da db

/-- The `less` closure of the default case. -/
def lessCreated (order : String) (a b : Task) : Bool :=
  if order == "desc" then Time.After a.CreatedAt b.CreatedAt
  else Time.Before a.CreatedAt b.CreatedAt

/-- Go `sortTasks`; the slice sorted in place is the result. -/
def sortTasks (tasks : List Task) (sortBy : TaskSort) : List Task :=
  if sortBy.Field == "priority" then sortSlice (lessPriority sortBy.Order) tasks
  else if sortBy.Field == "due_date" then sortSlice (lessDueDate sortBy.Order) tasks
  else sortSlice (lessCreated sortBy.Order) tasks

/-- The priority filter of `GetFilteredAndSortedTasks`: unless the filter is
`all` or empty, the loop that appends to `priorityFiltered` every task of the
given priority. -/
def filterByPriority (tasks : List Task) (priority : String) : List Task :=
  if priority != "all" && priority != "" then
    tasks.foldl (fun priorityFiltered task =>
      if task.Priority == priority then priorityFiltered ++ [task] else priorityFiltered) []
  else tasks

def GetFilteredAndSortedTasks {σ : Type} (repo : TaskRepository σ) (s : σ)
    (filter : TaskFilter) (sort : TaskSort) (now : Time) (loc : Location) :
    Except TaskError (List Task) :=
  let base :=
    if filter.Status == "active" then TaskService.GetTasksByStatus repo s ActiveTask
    else if filter.Status == "completed" then TaskService.GetTasksByStatus repo s CompletedTask
    else TaskService.GetAllTasks repo s
  match base with
  | .error err => .error err
  | .ok tasks =>
    let tasks := filterByPriority tasks filter.Priority
    if filter.DateType == "today" then
      match TaskService.GetTodayTasks repo s now loc with
      | .error err => .error err
      | .ok todayTasks => .ok (sortTasks (intersectTasks tasks todayTasks) sort)
    else if filter.DateType == "week" then
      match TaskService.GetWeekTasks repo s now with
      | .error err => .error err
      | .ok weekTasks => .ok (sortTasks (intersectTasks tasks weekTasks) sort)
    else if filter.DateType == "overdue" then
      match TaskService.GetOverdueTasks repo s now with
      | .error err => .error err
      | .ok overdueTasks => .ok (sortTasks (intersectTasks tasks overdueTasks) sort)
    else .ok (sortTasks tasks sort)

def CreateTask {σ : Type} (repo : TaskRepository σ) (s : σ) (req : CreateTaskRequest)
    (id : String) (now nowPriority nowDueDate : Time) : Except TaskError Task × σ :=
  match TaskService.CreateTask repo s req.Title req.Description id now with
  | (.error err, s1) => (.error err, s1)
  | (.ok task, s1) =>
    let afterPriority : Except TaskError Task × σ :=
      if req.Priority != "" &&
          (req.Priority == LowPriority || req.Priority == MediumPriority ||
            req.Priority == HighPriority) then
        TaskService.SetTaskPriority repo s1 task.ID req.Priority nowPriority
      else (.ok task, s1)
    match afterPriority with
    | (.error err, s2) => (.error err, s2)
    | (.ok task, s2) =>
      match req.DueDate with
      | some d => TaskService.SetTaskDueDate repo s2 task.ID (some d) nowDueDate
      | none => (.ok task, s2)

def GetTask {σ : Type} (repo : TaskRepository σ) (s : σ) (id : String) :
    Except TaskError Task :=
  TaskService.GetTaskByID repo s id

def UpdateTask {σ : Type} (repo : TaskRepository σ) (s : σ) (id title description : String)
    (now : Time) : Except TaskError Task × σ :=
  TaskService.UpdateTask repo s id title description now

def ToggleTaskStatus {σ : Type} (repo : TaskRepository σ) (s : σ) (id : String) (now : Time) :
    Except TaskError Task × σ :=
  match TaskService.GetTaskByID repo s id with
  | .error err => (.error err, s)
  | .ok task =>
    if task.Status == ActiveTask then TaskService.MarkTaskComplete repo s id now
    else TaskService.MarkTaskActive repo s id now

def SetTaskPriority {σ : Type} (repo : TaskRepository σ) (s : σ) (id priority : String)
    (now : Time) : Except TaskError Task × σ :=
  TaskService.SetTaskPriority repo s id priority now

def SetTaskDueDate {σ : Type} (repo : TaskRepository σ) (s : σ) (id : String)
    (dueDate : Option Time) (now : Time) : Except TaskError Task × σ :=
  TaskService.SetTaskDueDate repo s id dueDate now

def DeleteTask {σ : Type} (repo : TaskRepository σ) (s : σ) (id : String) :
    Option TaskError × σ :=
  TaskService.DeleteTask repo s id

end TaskUseCase

/-! ## Sample data -/

/-- An active task, due at instant 50. -/
def sampleDue : Task :=
  { ID := "a1", Title := "pay rent", Description := "", Status := ActiveTask,
    Priority := HighPriority, DueDate := some 50, CreatedAt := 10, UpdatedAt := 10 }

/-- An active task without a due date. -/
def sampleOpen : Task :=
  { ID := "b2", Title := "read", Description := "a book", Status := ActiveTask,
    Priority := MediumPriority, DueDate := none, CreatedAt := 20, UpdatedAt := 25 }

/-- A completed task, due at instant 40. -/
def sampleDone : Task :=
  { ID := "c3", Title := "call", Description := "", Status := CompletedTask,
    Priority := LowPriority, DueDate := some 40, CreatedAt := 30, UpdatedAt := 35 }

/-- An active task, due at instant 500. -/
def sampleLater : Task :=
  { ID := "d4", Title := "plan", Description := "", Status := ActiveTask,
    Priority := HighPriority, DueDate := some 500, CreatedAt := 40, UpdatedAt := 40 }

/-- An in-memory repository holding the four sample tasks. -/
def sampleRepo : MemoryTaskRepository :=
  { tasks := [sampleDue, sampleOpen, sampleDone, sampleLater] }

/-- A file system holding the snapshot of the sample tasks, oldest first, on
which writes and renames go through. -/
def sampleDisk : Disk :=
  { canonical := some (.records [sampleDue, sampleOpen, sampleDone, sampleLater]),
    temp := none, writeFails := false, renameFails := false }

/-- A file-backed repository holding the four sample tasks. -/
def sampleFileRepo : FileTaskRepository :=
  { tasks := [sampleDue, sampleOpen, sampleDone, sampleLater], disk := sampleDisk }

/-- An active task due at instant 86400000000000, the first instant of the
second day of the epoch in UTC. -/
def sampleMidnight : Task :=
  { ID := "e5", Title := "water plants", Description := "", Status := ActiveTask,
    Priority := MediumPriority, DueDate := some 86400000000000, CreatedAt := 50,
    UpdatedAt := 50 }

/-- The sample file system with a failing `os.WriteFile`. -/
def sampleFailingDisk : Disk := { sampleDisk with writeFails := true }

/-- The sample file-backed repository on the failing file system. -/
def sampleFailingRepo : FileTaskRepository :=
  { tasks := [sampleDue, sampleOpen, sampleDone, sampleLater], disk := sampleFailingDisk }

/-- A file system without a snapshot, on which writes and renames go through. -/
def sampleEmptyDisk : Disk :=
  { canonical := none, temp := none, writeFails := false, renameFails := false }

/-- The task `e5` with its due date moved to 10000-01-01T00:00:00Z. -/
def sampleFarFuture : Task := { sampleMidnight with DueDate := some 253402300800000000000 }

/-- The file-backed repository reached from an empty data directory by `Create`
of the task `e5` and `Update` of it to the due date in the year 10000. -/
def sampleFarRepo : FileTaskRepository :=
  (FileTaskRepository.Update
    (FileTaskRepository.Create { tasks := [], disk := sampleEmptyDisk } sampleMidnight).2
    sampleFarFuture).2

/-! ## Lemmas on `sort.Slice` -/

theorem insertLeft_perm {α : Type} (less : α → α → Bool) (x : α) (l : List α) :
    (insertLeft less x l).Perm (x :: l) := by
  induction l with
  | nil => simp [insertLeft]
  | cons y ys ih =>
    simp only [insertLeft]
    split
    · exact (List.Perm.cons y ih).trans (List.Perm.swap x y ys)
    · exact List.Perm.refl _

theorem foldl_insertLeft_perm {α : Type} (less : α → α → Bool) (l acc : List α) :
    (l.foldl (fun acc x => insertLeft less x acc) acc).Perm (l ++ acc) := by
  induction l generalizing acc with
  | nil => simp
  | cons x xs ih =>
    simp only [List.foldl_cons, List.cons_append]
    refine (ih _).trans ?_
    refine (List.Perm.append_left xs (insertLeft_perm less x acc)).trans ?_
    exact List.perm_middle

theorem sortSlice_perm {α : Type} (less : α → α → Bool) (l : List α) :
    (sortSlice less l).Perm l := by
  unfold sortSlice
  refine (List.reverse_perm _).trans ?_
  simpa using foldl_insertLeft_perm less l []

theorem mem_sortSlice {α : Type} (less : α → α → Bool) (l : List α) (x : α) :
    x ∈ sortSlice less l ↔ x ∈ l :=
  (sortSlice_perm less l).mem_iff

theorem insertLeft_pairwise {α : Type} {less : α → α → Bool} (h : StrictWeak less)
    (x : α) (l : List α) (hl : l.Pairwise (fun a b => less a b = false)) :
    (insertLeft less x l).Pairwise (fun a b => less a b = false) := by
  induction l with
  | nil => simp [insertLeft]
  | cons y ys ih =>
    rw [List.pairwise_cons] at hl
    simp only [insertLeft]
    split
    · rename_i hxy
      rw [List.pairwise_cons]
      refine ⟨?_, ih hl.2⟩
      intro w hw
      rcases List.mem_cons.mp ((insertLeft_perm less x ys).mem_iff.mp hw) with hw1 | hw1
      · rw [hw1]
        exact h.asymm x y hxy
      · exact hl.1 w hw1
    · rename_i hxy
      have hxy : less x y = false := by simpa using hxy
      rw [List.pairwise_cons]
      refine ⟨?_, List.pairwise_cons.mpr hl⟩
      intro w hw
      rcases List.mem_cons.mp hw with hw | hw
      · rw [hw]; exact hxy
      · exact h.negTrans x y w hxy (hl.1 w hw)

theorem foldl_insertLeft_pairwise {α : Type} {less : α → α → Bool} (h : StrictWeak less)
    (l acc : List α) (hacc : acc.Pairwise (fun a b => less a b = false)) :
    (l.foldl (fun acc x => insertLeft less x acc) acc).Pairwise
      (fun a b => less a b = false) := by
  induction l generalizing acc with
  | nil => simpa using hacc
  | cons x xs ih => exact ih _ (insertLeft_pairwise h x acc hacc)

/-- After `sort.Slice` no element is `less` than one that stands before it. -/
theorem sortSlice_pairwise {α : Type} {less : α → α → Bool} (h : StrictWeak less)
    (l : List α) : (sortSlice less l).Pairwise (fun a b => less b a = false) := by
  unfold sortSlice
  rw [List.pairwise_reverse]
  exact foldl_insertLeft_pairwise h l [] List.Pairwise.nil

theorem strictWeak_newestFirst : StrictWeak newestFirst := by
  constructor
  · intro a b h
    simp only [newestFirst, Time.After, decide_eq_true_eq, decide_eq_false_iff_not] at *
    linarith
  · intro a b c h1 h2
    simp only [newestFirst, Time.After, decide_eq_false_iff_not] at *
    linarith

theorem strictWeak_oldestFirst : StrictWeak oldestFirst := by
  constructor
  · intro a b h
    simp only [oldestFirst, Time.Before, decide_eq_true_eq, decide_eq_false_iff_not] at *
    linarith
  · intro a b c h1 h2
    simp only [oldestFirst, Time.Before, decide_eq_false_iff_not] at *
    linarith

theorem strictWeak_lessDueDate (order : String) :
    StrictWeak (TaskUseCase.lessDueDate order) := by
  constructor
  · intro a b h
    unfold TaskUseCase.lessDueDate at *
    cases ha : a.DueDate <;> cases hb : b.DueDate <;> simp only [ha, hb] at h ⊢ <;>
      first
        | contradiction
        | (by_cases ho : order = "desc" <;>
            simp only [ho, beq_self_eq_true, if_true, beq_iff_eq, if_false, Time.After,
              Time.Before, decide_eq_true_eq, decide_eq_false_iff_not] at h ⊢ <;> linarith)
  · intro a b c h1 h2
    unfold TaskUseCase.lessDueDate at *
    cases ha : a.DueDate <;> cases hb : b.DueDate <;> cases hc : c.DueDate <;>
      simp only [ha, hb, hc] at h1 h2 ⊢ <;>
      first
        | contradiction
        | (by_cases ho : order = "desc" <;>
            simp only [ho, beq_self_eq_true, if_true, beq_iff_eq, if_false, Time.After,
              Time.Before, decide_eq_false_iff_not] at h1 h2 ⊢ <;> linarith)

/-! ## Lemmas on maps -/

theorem TaskMap.lookup_cons (a : Task) (as : TaskMap) (id : String) :
    TaskMap.lookup (a :: as) id = if a.ID = id then some a else TaskMap.lookup as id := by
  unfold TaskMap.lookup
  by_cases h : a.ID = id
  · simp [List.find?, h]
  · have hb : (a.ID == id) = false := by simpa using h
    simp [List.find?, h, hb]

theorem TaskMap.lookup_eq_some {m : TaskMap} {id : String} {t : Task}
    (h : TaskMap.lookup m id = some t) : t ∈ m ∧ t.ID = id := by
  unfold TaskMap.lookup at h
  exact ⟨List.mem_of_find?_eq_some h, by simpa using List.find?_some h⟩

theorem TaskMap.lookup_eq_none {m : TaskMap} {id : String} :
    TaskMap.lookup m id = none ↔ ∀ t ∈ m, t.ID ≠ id := by
  unfold TaskMap.lookup
  simp [List.find?_eq_none]

theorem TaskMap.lookup_isSome {m : TaskMap} {id : String} :
    (TaskMap.lookup m id).isSome = true ↔ id ∈ m.map (fun t => t.ID) := by
  cases h : TaskMap.lookup m id with
  | none =>
    have := TaskMap.lookup_eq_none.mp h
    simp only [Option.isSome_none, List.mem_map, false_iff, Bool.false_eq_true]
    rintro ⟨t, ht, rfl⟩
    exact this t ht rfl
  | some t =>
    have := TaskMap.lookup_eq_some h
    simp only [Option.isSome_some, List.mem_map, true_iff]
    exact ⟨t, this.1, this.2⟩

/-- With unique ids, looking up the id of a stored task finds that task. -/
theorem TaskMap.lookup_of_mem {m : TaskMap} (hm : TaskMap.UniqueIDs m) {t : Task}
    (ht : t ∈ m) : TaskMap.lookup m t.ID = some t := by
  induction m with
  | nil => cases ht
  | cons a as ih =>
    unfold TaskMap.UniqueIDs at hm
    simp only [List.map_cons, List.nodup_cons, List.mem_map, not_exists, not_and] at hm
    rw [TaskMap.lookup_cons]
    by_cases hat : a.ID = t.ID
    · have : t = a := by
        rcases List.mem_cons.mp ht with h | h
        · exact h
        · exact absurd hat.symm (hm.1 t h)
      rw [if_pos hat, this]
    · have hta : t ∈ as := by
        rcases List.mem_cons.mp ht with h | h
        · exact absurd (by rw [h]) hat
        · exact h
      rw [if_neg hat]
      exact ih hm.2 hta

theorem TaskMap.lookup_append_singleton (m : TaskMap) (t : Task) (id : String) :
    TaskMap.lookup (m ++ [t]) id =
      match TaskMap.lookup m id with
      | some x => some x
      | none => if t.ID = id then some t else none := by
  induction m with
  | nil => simp [TaskMap.lookup_cons, TaskMap.lookup]
  | cons a as ih =>
    rw [List.cons_append, TaskMap.lookup_cons, TaskMap.lookup_cons]
    by_cases h : a.ID = id
    · simp [h]
    · simp only [h, if_false]; exact ih

theorem TaskMap.lookup_replace (m : TaskMap) (t : Task) (id : String) :
    TaskMap.lookup (m.map (fun x => if x.ID == t.ID then t else x)) id =
      if id = t.ID then (TaskMap.lookup m id).map (fun _ => t) else TaskMap.lookup m id := by
  induction m with
  | nil => simp [TaskMap.lookup]
  | cons a as ih =>
    rw [List.map_cons, TaskMap.lookup_cons, TaskMap.lookup_cons, ih]
    by_cases hat : a.ID = t.ID
    · by_cases hid : id = t.ID
      · simp [hat, hid]
      · have h1 : ¬ t.ID = id := fun h => hid h.symm
        simp [hat, hid, h1]
    · by_cases hai : a.ID = id
      · have hid : ¬ id = t.ID := fun h => hat (hai.trans h)
        simp [hat, hai, hid]
      · simp [hat, hai]

theorem TaskMap.lookup_store_self (m : TaskMap) (t : Task) :
    TaskMap.lookup (TaskMap.store m t) t.ID = some t := by
  unfold TaskMap.store
  cases h : TaskMap.lookup m t.ID with
  | some x => rw [if_pos (by simp), TaskMap.lookup_replace, h]; simp
  | none => rw [if_neg (by simp), TaskMap.lookup_append_singleton, h]; simp

theorem TaskMap.lookup_store_other (m : TaskMap) (t : Task) {id : String} (hid : id ≠ t.ID) :
    TaskMap.lookup (TaskMap.store m t) id = TaskMap.lookup m id := by
  unfold TaskMap.store
  have hne : ¬ t.ID = id := fun h => hid h.symm
  split
  · rw [TaskMap.lookup_replace, if_neg hid]
  · rw [TaskMap.lookup_append_singleton]
    cases TaskMap.lookup m id <;> simp [hne]

theorem strictWeak_lessPriority (order : String) :
    StrictWeak (TaskUseCase.lessPriority order) := by
  constructor
  · intro a b h
    unfold TaskUseCase.lessPriority at *
    by_cases ho : order = "desc" <;>
      simp only [ho, beq_self_eq_true, if_true, beq_iff_eq, if_false, gt_iff_lt,
        decide_eq_true_eq, decide_eq_false_iff_not] at h ⊢ <;> omega
  · intro a b c h1 h2
    unfold TaskUseCase.lessPriority at *
    by_cases ho : order = "desc" <;>
      simp only [ho, beq_self_eq_true, if_true, beq_iff_eq, if_false, gt_iff_lt,
        decide_eq_false_iff_not] at h1 h2 ⊢ <;> omega

theorem strictWeak_lessCreated (order : String) :
    StrictWeak (TaskUseCase.lessCreated order) := by
  constructor
  · intro a b h
    unfold TaskUseCase.lessCreated at *
    by_cases ho : order = "desc" <;>
      simp only [ho, beq_self_eq_true, if_true, beq_iff_eq, if_false, Time.After, Time.Before,
        decide_eq_true_eq, decide_eq_false_iff_not] at h ⊢ <;> linarith
  · intro a b c h1 h2
    unfold TaskUseCase.lessCreated at *
    by_cases ho : order = "desc" <;>
      simp only [ho, beq_self_eq_true, if_true, beq_iff_eq, if_false, Time.After, Time.Before,
        decide_eq_false_iff_not] at h1 h2 ⊢ <;> linarith

theorem TaskMap.lookup_foldl_store (l : List Task) (acc : TaskMap) (id : String) :
    (TaskMap.lookup (l.foldl TaskMap.store acc) id).isSome = true ↔
      (TaskMap.lookup acc id).isSome = true ∨ id ∈ l.map (fun t => t.ID) := by
  induction l generalizing acc with
  | nil => simp
  | cons x xs ih =>
    rw [List.foldl_cons, ih]
    by_cases hx : id = x.ID
    · subst hx
      simp [TaskMap.lookup_store_self]
    · rw [TaskMap.lookup_store_other acc x hx]
      have hx2 : ¬ x.ID = id := fun h => hx h.symm
      simp [hx, hx2]

/-- The test `_, exists := taskMap[task.ID]` of `intersectTasks`. -/
theorem TaskUseCase.mem_intersectTasks (tasks1 tasks2 : List Task) (t : Task) :
    t ∈ TaskUseCase.intersectTasks tasks1 tasks2 ↔
      t ∈ tasks2 ∧ t.ID ∈ tasks1.map (fun x => x.ID) := by
  unfold TaskUseCase.intersectTasks
  simp only [List.mem_filter, TaskMap.lookup_foldl_store]
  simp [TaskMap.lookup]

/-- Over sublists of a map with unique ids, intersecting by id is intersecting. -/
theorem TaskUseCase.mem_intersectTasks_of_unique {m : TaskMap} (hm : TaskMap.UniqueIDs m)
    {tasks1 tasks2 : List Task} (h1 : ∀ x ∈ tasks1, x ∈ m) (h2 : ∀ x ∈ tasks2, x ∈ m)
    (t : Task) :
    t ∈ TaskUseCase.intersectTasks tasks1 tasks2 ↔ t ∈ tasks1 ∧ t ∈ tasks2 := by
  rw [TaskUseCase.mem_intersectTasks]
  constructor
  · rintro ⟨ht2, hid⟩
    refine ⟨?_, ht2⟩
    obtain ⟨x, hx, hxid⟩ := List.mem_map.mp hid
    have e1 := TaskMap.lookup_of_mem hm (h1 x hx)
    have e2 := TaskMap.lookup_of_mem hm (h2 t ht2)
    rw [hxid, e2] at e1
    rw [Option.some.inj e1]
    exact hx
  · rintro ⟨ht1, ht2⟩
    exact ⟨ht2, List.mem_map.mpr ⟨t, ht1, rfl⟩⟩

theorem TaskUseCase.sortTasks_perm (tasks : List Task) (sortBy : TaskSort) :
    (TaskUseCase.sortTasks tasks sortBy).Perm tasks := by
  unfold TaskUseCase.sortTasks
  split
  · exact sortSlice_perm _ _
  · split
    · exact sortSlice_perm _ _
    · exact sortSlice_perm _ _

theorem TaskUseCase.mem_sortTasks (tasks : List Task) (sortBy : TaskSort) (t : Task) :
    t ∈ TaskUseCase.sortTasks tasks sortBy ↔ t ∈ tasks :=
  (TaskUseCase.sortTasks_perm tasks sortBy).mem_iff

/-- A loop that appends the elements passing a test keeps them in order. -/
theorem foldl_append_eq_filter {α : Type} (p : α → Bool) (l acc : List α) :
    l.foldl (fun out x => if p x then out ++ [x] else out) acc = acc ++ l.filter p := by
  induction l generalizing acc with
  | nil => simp
  | cons x xs ih =>
    rw [List.foldl_cons, ih]
    by_cases hx : p x = true
    · simp [hx]
    · simp [hx]

theorem TaskUseCase.filterByPriority_eq (tasks : List Task) (priority : String) :
    TaskUseCase.filterByPriority tasks priority =
      if priority = "all" ∨ priority = "" then tasks
      else tasks.filter (fun task => task.Priority == priority) := by
  unfold TaskUseCase.filterByPriority
  by_cases h1 : priority = "all"
  · simp [h1]
  · by_cases h2 : priority = ""
    · simp [h2]
    · have hc : (priority != "all" && priority != "") = true := by simp [h1, h2]
      rw [if_pos hc, if_neg (by simp [h1, h2])]
      have := foldl_append_eq_filter (fun task : Task => task.Priority == priority) tasks []
      simpa using this

/-- C1: on the in-memory backend with unique task ids, a task is in the result
of `GetFilteredAndSortedTasks` exactly when it is stored and passes the three
filters: status (`active` and `completed` ask for that status, any other value
lets every task pass), priority (`all` and the empty string let every task
pass, any other value asks for that priority) and date window (`today`, `week`
and `overdue` ask for membership in the derived set of that name, any other
value lets every task pass). -/
theorem GetFilteredAndSortedTasks_mem_iff (r : MemoryTaskRepository)
    (hr : TaskMap.UniqueIDs r.tasks) (filter : TaskFilter) (sort : TaskSort)
    (now : Time) (loc : Location) :
    ∃ out, TaskUseCase.GetFilteredAndSortedTasks MemoryTaskRepository.backend r filter sort
        now loc = .ok out ∧
      ∀ t, t ∈ out ↔
        (t ∈ r.tasks ∧
          (filter.Status = "active" → t.Status = ActiveTask) ∧
          (filter.Status = "completed" → t.Status = CompletedTask) ∧
          (filter.Priority ≠ "all" → filter.Priority ≠ "" → t.Priority = filter.Priority) ∧
          (filter.DateType = "today" → ∃ l,
            TaskService.GetTodayTasks MemoryTaskRepository.backend r now loc = .ok l ∧ t ∈ l) ∧
          (filter.DateType = "week" → ∃ l,
            TaskService.GetWeekTasks MemoryTaskRepository.backend r now = .ok l ∧ t ∈ l) ∧
          (filter.DateType = "overdue" → ∃ l,
            TaskService.GetOverdueTasks MemoryTaskRepository.backend r now = .ok l ∧ t ∈ l)) := by
  -- the base set and the priority narrowing
  obtain ⟨base, hbase, hbmem⟩ : ∃ base,
      (if filter.Status == "active" then
          TaskService.GetTasksByStatus MemoryTaskRepository.backend r ActiveTask
        else if filter.Status == "completed" then
          TaskService.GetTasksByStatus MemoryTaskRepository.backend r CompletedTask
        else TaskService.GetAllTasks MemoryTaskRepository.backend r) = .ok base ∧
      ∀ t, t ∈ base ↔ (t ∈ r.tasks ∧ (filter.Status = "active" → t.Status = ActiveTask) ∧
          (filter.Status = "completed" → t.Status = CompletedTask)) := by
    by_cases h1 : filter.Status = "active"
    · refine ⟨_, by simp only [h1, beq_self_eq_true, if_true]; rfl, fun t => ?_⟩
      simp [mem_sortSlice, h1, ActiveTask, CompletedTask]
    · by_cases h2 : filter.Status = "completed"
      · refine ⟨_, by simp only [h2]; rfl, fun t => ?_⟩
        simp [mem_sortSlice, h2, ActiveTask, CompletedTask]
      · refine ⟨_, by simp only [h1, h2, beq_iff_eq, if_false]; rfl, fun t => ?_⟩
        simp [mem_sortSlice, h1, h2]
  obtain ⟨work, hwork, hwmem⟩ : ∃ work,
      TaskUseCase.filterByPriority base filter.Priority = work ∧
      ∀ t, t ∈ work ↔ (t ∈ base ∧
        (filter.Priority ≠ "all" → filter.Priority ≠ "" → t.Priority = filter.Priority)) := by
    refine ⟨_, rfl, fun t => ?_⟩
    rw [TaskUseCase.filterByPriority_eq]
    by_cases h1 : filter.Priority = "all"
    · simp [h1]
    · by_cases h2 : filter.Priority = ""
      · simp [h2]
      · simp [h1, h2]
  have hworkSub : ∀ x ∈ work, x ∈ r.tasks := fun x hx => ((hbmem x).mp ((hwmem x).mp hx).1).1
  -- the derived sets are parts of the stored tasks
  have hall : MemoryTaskRepository.backend.GetAll r = .ok (sortSlice newestFirst r.tasks) := rfl
  unfold TaskUseCase.GetFilteredAndSortedTasks
  simp only [hbase, hwork]
  by_cases d1 : filter.DateType = "today"
  · simp only [d1, beq_self_eq_true, if_true, TaskService.GetTodayTasks, hall]
    refine ⟨_, rfl, fun t => ?_⟩
    rw [TaskUseCase.mem_sortTasks, TaskUseCase.mem_intersectTasks_of_unique hr hworkSub
      (fun x hx => (mem_sortSlice _ _ _).mp (List.mem_of_mem_filter hx)), hwmem, hbmem]
    simp
    tauto
  · by_cases d2 : filter.DateType = "week"
    · simp only [d2, beq_self_eq_true, if_true, TaskService.GetWeekTasks, hall]
      refine ⟨_, rfl, fun t => ?_⟩
      rw [TaskUseCase.mem_sortTasks, TaskUseCase.mem_intersectTasks_of_unique hr hworkSub
        (fun x hx => (mem_sortSlice _ _ _).mp (List.mem_of_mem_filter hx)), hwmem, hbmem]
      simp
      tauto
    · by_cases d3 : filter.DateType = "overdue"
      · simp only [d3, beq_self_eq_true, if_true, TaskService.GetOverdueTasks, hall]
        refine ⟨_, rfl, fun t => ?_⟩
        rw [TaskUseCase.mem_sortTasks, TaskUseCase.mem_intersectTasks_of_unique hr hworkSub
          (fun x hx => (mem_sortSlice _ _ _).mp (List.mem_of_mem_filter hx)), hwmem, hbmem]
        simp
        tauto
      · simp only [d1, d2, d3, beq_iff_eq, if_false]
        refine ⟨_, rfl, fun t => ?_⟩
        rw [TaskUseCase.mem_sortTasks, hwmem, hbmem]
        simp
        tauto
/-- C1 (witness): on the sample repository, with status `active` and date
window `overdue`, the active overdue task is in the result and the active tasks
that are not overdue are not. -/
theorem GetFilteredAndSortedTasks_mem_iff_witness :
    TaskMap.UniqueIDs sampleRepo.tasks ∧
    TaskUseCase.GetFilteredAndSortedTasks MemoryTaskRepository.backend sampleRepo
        { Status := "active", Priority := "", DateType := "overdue" }
        { Field := "created", Order := "asc" } 100 { offset := 0 } = .ok [sampleDue] ∧
    ∃ out, TaskUseCase.GetFilteredAndSortedTasks MemoryTaskRepository.backend sampleRepo
        { Status := "active", Priority := "", DateType := "overdue" }
        { Field := "created", Order := "asc" } 100 { offset := 0 } = .ok out ∧
      ∀ t, t ∈ out ↔
        (t ∈ sampleRepo.tasks ∧
          (("active" : String) = "active" → t.Status = ActiveTask) ∧
          (("active" : String) = "completed" → t.Status = CompletedTask) ∧
          (("" : String) ≠ "all" → ("" : String) ≠ "" → t.Priority = "") ∧
          (("overdue" : String) = "today" → ∃ l,
            TaskService.GetTodayTasks MemoryTaskRepository.backend sampleRepo 100
              { offset := 0 } = .ok l ∧ t ∈ l) ∧
          (("overdue" : String) = "week" → ∃ l,
            TaskService.GetWeekTasks MemoryTaskRepository.backend sampleRepo 100 = .ok l ∧
              t ∈ l) ∧
          (("overdue" : String) = "overdue" → ∃ l,
            TaskService.GetOverdueTasks MemoryTaskRepository.backend sampleRepo 100 = .ok l ∧
              t ∈ l)) :=
  ⟨by decide, rfl,
    GetFilteredAndSortedTasks_mem_iff sampleRepo (by decide)
      { Status := "active", Priority := "", DateType := "overdue" }
      { Field := "created", Order := "asc" } 100 { offset := 0 }⟩

/-- C2: `sortTasks` with field `due_date`, whatever the order string (`asc`,
`desc` or any other), rearranges the tasks, every one of them kept, so that no
task without a due date stands before a task that has one. -/
theorem sortTasks_due_date_nil_last (tasks : List Task) (order : String) :
    (TaskUseCase.sortTasks tasks { Field := "due_date", Order := order }).Perm tasks ∧
    (TaskUseCase.sortTasks tasks { Field := "due_date", Order := order }).Pairwise
      (fun a b => ¬ (a.DueDate = none ∧ b.DueDate ≠ none)) := by
  refine ⟨TaskUseCase.sortTasks_perm _ _, ?_⟩
  have hs : TaskUseCase.sortTasks tasks { Field := "due_date", Order := order } =
      sortSlice (TaskUseCase.lessDueDate order) tasks := rfl
  rw [hs]
  refine (sortSlice_pairwise (strictWeak_lessDueDate order) tasks).imp ?_
  intro a b hab
  rintro ⟨ha, hb⟩
  unfold TaskUseCase.lessDueDate at hab
  cases hbd : b.DueDate with
  | none => exact hb hbd
  | some d => simp [ha, hbd] at hab

/-- C2 (witness): the sample tasks sorted by due date in both orders; the task
`b2` without a due date comes last each time. -/
theorem sortTasks_due_date_nil_last_witness :
    TaskUseCase.sortTasks sampleRepo.tasks { Field := "due_date", Order := "asc" } =
      [sampleDone, sampleDue, sampleLater, sampleOpen] ∧
    TaskUseCase.sortTasks sampleRepo.tasks { Field := "due_date", Order := "desc" } =
      [sampleLater, sampleDue, sampleDone, sampleOpen] ∧
    (TaskUseCase.sortTasks sampleRepo.tasks { Field := "due_date", Order := "desc" }).Perm
      sampleRepo.tasks ∧
    (TaskUseCase.sortTasks sampleRepo.tasks { Field := "due_date", Order := "desc" }).Pairwise
      (fun a b => ¬ (a.DueDate = none ∧ b.DueDate ≠ none)) :=
  ⟨rfl, rfl, sortTasks_due_date_nil_last sampleRepo.tasks "desc"⟩

/-- C3: `intersectTasks tasks1 tasks2` is `tasks2` filtered, in its own order,
by "the id occurs in `tasks1`"; reordering `tasks1` changes nothing. -/
theorem intersectTasks_eq_filter (tasks1 tasks2 : List Task) :
    TaskUseCase.intersectTasks tasks1 tasks2 =
        tasks2.filter (fun t => decide (t.ID ∈ tasks1.map (fun x => x.ID))) ∧
      ∀ tasks1' : List Task, tasks1'.Perm tasks1 →
        TaskUseCase.intersectTasks tasks1' tasks2 = TaskUseCase.intersectTasks tasks1 tasks2 := by
  have key : ∀ l1 : List Task, TaskUseCase.intersectTasks l1 tasks2 =
      tasks2.filter (fun t => decide (t.ID ∈ l1.map (fun x => x.ID))) := by
    intro l1
    unfold TaskUseCase.intersectTasks
    apply List.filter_congr
    intro t _
    rw [Bool.eq_iff_iff, TaskMap.lookup_foldl_store]
    simp [TaskMap.lookup]
  refine ⟨key tasks1, fun l1 hp => ?_⟩
  rw [key l1, key tasks1]
  apply List.filter_congr
  intro t _
  rw [Bool.eq_iff_iff, decide_eq_true_iff, decide_eq_true_iff]
  exact (hp.map _).mem_iff

/-- C3 (witness): the sample tasks intersected in both orders of the first list. -/
theorem intersectTasks_eq_filter_witness :
    TaskUseCase.intersectTasks [sampleDue, sampleDone] [sampleDone, sampleOpen, sampleDue] =
        [sampleDone, sampleDue] ∧
      TaskUseCase.intersectTasks [sampleDone, sampleDue] [sampleDone, sampleOpen, sampleDue] =
        TaskUseCase.intersectTasks [sampleDue, sampleDone] [sampleDone, sampleOpen, sampleDue] :=
  ⟨rfl, (intersectTasks_eq_filter [sampleDue, sampleDone]
      [sampleDone, sampleOpen, sampleDue]).2 [sampleDone, sampleDue] (List.Perm.swap _ _ _)⟩

/-- C4: over every backend, `CreateTask` with a title that is empty after
trimming fails with the empty-title error and hands the repository back in the
state it was given, so that every later read, `GetAll` included, returns what
it returned before the call. -/
theorem CreateTask_blank_title {σ : Type} (repo : TaskRepository σ) (s : σ)
    (title description id : String) (now : Time) (h : TrimSpace title = "") :
    TaskService.CreateTask repo s title description id now = (.error .emptyTitle, s) := by
  unfold TaskService.CreateTask
  simp [h]

/-- C4 (witness): a title of white space only, on the sample repository. -/
theorem CreateTask_blank_title_witness :
    TrimSpace " \t " = "" ∧
      TaskService.CreateTask MemoryTaskRepository.backend sampleRepo " \t " "x" "e5" 100 =
        (.error .emptyTitle, sampleRepo) :=
  ⟨by decide, CreateTask_blank_title MemoryTaskRepository.backend sampleRepo " \t " "x" "e5" 100
    (by decide)⟩

/-- C5: on the in-memory backend, `CreateTask` with a title that is not empty
after trimming succeeds, and `GetByID` of the returned id then returns the
created task: the given title and description, status active, priority medium,
and `CreatedAt` equal to `UpdatedAt`. -/
theorem CreateTask_then_GetByID (r : MemoryTaskRepository) (title description id : String)
    (now : Time) (h : TrimSpace title ≠ "") :
    ∃ t r', TaskService.CreateTask MemoryTaskRepository.backend r title description id now =
        (.ok t, r') ∧
      MemoryTaskRepository.GetByID r' t.ID = .ok t ∧
      t.Title = title ∧ t.Description = description ∧ t.Status = ActiveTask ∧
      t.Priority = MediumPriority ∧ t.CreatedAt = t.UpdatedAt := by
  refine ⟨NewTask title description id now,
    { tasks := TaskMap.store r.tasks (NewTask title description id now) }, ?_, ?_,
    rfl, rfl, rfl, rfl, rfl⟩
  · unfold TaskService.CreateTask
    simp [h, MemoryTaskRepository.backend, MemoryTaskRepository.Create]
  · unfold MemoryTaskRepository.GetByID
    simp only [TaskMap.lookup_store_self]

/-- C5 (witness): creating "buy milk" in the sample repository. -/
theorem CreateTask_then_GetByID_witness :
    TrimSpace "buy milk" ≠ "" ∧
    ∃ t r', TaskService.CreateTask MemoryTaskRepository.backend sampleRepo "buy milk" "2l"
        "e5" 100 = (.ok t, r') ∧
      MemoryTaskRepository.GetByID r' t.ID = .ok t ∧
      t.Title = "buy milk" ∧ t.Description = "2l" ∧ t.Status = ActiveTask ∧
      t.Priority = MediumPriority ∧ t.CreatedAt = t.UpdatedAt :=
  ⟨by decide, CreateTask_then_GetByID sampleRepo "buy milk" "2l" "e5" 100 (by decide)⟩

/-- C6: on the in-memory backend, for a stored task `t` under `id`, each of
`MarkTaskComplete`, `MarkTaskActive`, `SetTaskPriority`, `SetTaskDueDate` and
(with a title that is not blank) `UpdateTask` succeeds, and the task stored
under `id` afterwards is the returned one, has the id and `CreatedAt` of `t`,
and, when the clock reading `now` is not before `t.UpdatedAt`, an `UpdatedAt`
not before `t.UpdatedAt`. -/
theorem mutation_keeps_id_and_createdAt (r : MemoryTaskRepository) (id : String) (t : Task)
    (hget : MemoryTaskRepository.GetByID r id = .ok t) (now : Time)
    (priority : Priority) (dueDate : Option Time) (title description : String)
    (out : Except TaskError Task × MemoryTaskRepository)
    (hout : out = TaskService.MarkTaskComplete MemoryTaskRepository.backend r id now ∨
      out = TaskService.MarkTaskActive MemoryTaskRepository.backend r id now ∨
      out = TaskService.SetTaskPriority MemoryTaskRepository.backend r id priority now ∨
      out = TaskService.SetTaskDueDate MemoryTaskRepository.backend r id dueDate now ∨
      (TrimSpace title ≠ "" ∧
        out = TaskService.UpdateTask MemoryTaskRepository.backend r id title description now)) :
    ∃ t' r', out = (.ok t', r') ∧ MemoryTaskRepository.GetByID r' id = .ok t' ∧
      t'.ID = t.ID ∧ t'.CreatedAt = t.CreatedAt ∧
      (t.UpdatedAt ≤ now → t.UpdatedAt ≤ t'.UpdatedAt) := by
  have hlook : TaskMap.lookup r.tasks id = some t := by
    unfold MemoryTaskRepository.GetByID at hget
    cases h : TaskMap.lookup r.tasks id with
    | none => simp [h] at hget
    | some x => simp [h] at hget; rw [hget]
  have hid : t.ID = id := (TaskMap.lookup_eq_some hlook).2
  have hget' : MemoryTaskRepository.backend.GetByID r id = .ok t := hget
  -- `Update` of a task with the id of `t` succeeds and stores it
  have hupd : ∀ u : Task, u.ID = t.ID →
      MemoryTaskRepository.backend.Update r u = (none, { tasks := TaskMap.store r.tasks u }) := by
    intro u hu
    have hlu : TaskMap.lookup r.tasks u.ID = some t := by rw [hu, hid]; exact hlook
    simp [MemoryTaskRepository.backend, MemoryTaskRepository.Update, hlu]
  have hfin : ∀ u : Task, u.ID = t.ID → u.CreatedAt = t.CreatedAt → u.UpdatedAt = now →
      ∃ t' r', ((Except.ok u, { tasks := TaskMap.store r.tasks u }) :
          Except TaskError Task × MemoryTaskRepository) = (.ok t', r') ∧
        MemoryTaskRepository.GetByID r' id = .ok t' ∧
        t'.ID = t.ID ∧ t'.CreatedAt = t.CreatedAt ∧
        (t.UpdatedAt ≤ now → t.UpdatedAt ≤ t'.UpdatedAt) := by
    intro u hu hc hn
    refine ⟨u, { tasks := TaskMap.store r.tasks u }, rfl, ?_, hu, hc,
      fun hle => by rw [hn]; exact hle⟩
    unfold MemoryTaskRepository.GetByID
    have := TaskMap.lookup_store_self r.tasks u
    rw [hu, hid] at this
    simp only [this]
  rcases hout with h | h | h | h | ⟨hne, h⟩
  · rw [h]; unfold TaskService.MarkTaskComplete
    simp only [hget', hupd (t.MarkComplete now) rfl]
    exact hfin (t.MarkComplete now) rfl rfl rfl
  · rw [h]; unfold TaskService.MarkTaskActive
    simp only [hget', hupd (t.MarkActive now) rfl]
    exact hfin (t.MarkActive now) rfl rfl rfl
  · rw [h]; unfold TaskService.SetTaskPriority
    simp only [hget', hupd (t.SetPriority priority now) rfl]
    exact hfin (t.SetPriority priority now) rfl rfl rfl
  · rw [h]; unfold TaskService.SetTaskDueDate
    simp only [hget', hupd (t.SetDueDate dueDate now) rfl]
    exact hfin (t.SetDueDate dueDate now) rfl rfl rfl
  · rw [h]; unfold TaskService.UpdateTask
    have hb : (TrimSpace title == "") = false := by simpa using hne
    simp only [hget', hb, Bool.false_eq_true, if_false,
      hupd { t with Title := title, Description := description, UpdatedAt := now } rfl]
    exact hfin { t with Title := title, Description := description, UpdatedAt := now }
      rfl rfl rfl

/-- C6 (witness): marking the sample task `a1` complete at instant 100. -/
theorem mutation_keeps_id_and_createdAt_witness :
    MemoryTaskRepository.GetByID sampleRepo "a1" = .ok sampleDue ∧
    ∃ t' r', TaskService.MarkTaskComplete MemoryTaskRepository.backend sampleRepo "a1" 100 =
        (.ok t', r') ∧ MemoryTaskRepository.GetByID r' "a1" = .ok t' ∧
      t'.ID = sampleDue.ID ∧ t'.CreatedAt = sampleDue.CreatedAt ∧
      (sampleDue.UpdatedAt ≤ 100 → sampleDue.UpdatedAt ≤ t'.UpdatedAt) :=
  ⟨rfl, mutation_keeps_id_and_createdAt sampleRepo "a1" sampleDue rfl 100 "" none "" "" _
    (Or.inl rfl)⟩

/-- C7: on the in-memory and on the file-backed backend, `Delete` of an id
that no stored task has fails with the not-found error and hands the repository
back as it was (for the file backend: the map and the files). -/
theorem Delete_absent_id (id : String) :
    (∀ r : MemoryTaskRepository, (∀ t ∈ r.tasks, t.ID ≠ id) →
        MemoryTaskRepository.Delete r id = (some (.notFound id), r)) ∧
    (∀ r : FileTaskRepository, (∀ t ∈ r.tasks, t.ID ≠ id) →
        FileTaskRepository.Delete r id = (some (.notFound id), r)) := by
  constructor
  · intro r h
    unfold MemoryTaskRepository.Delete
    rw [TaskMap.lookup_eq_none.mpr h]
  · intro r h
    unfold FileTaskRepository.Delete
    rw [TaskMap.lookup_eq_none.mpr h]

/-- C7 (witness): deleting the id `zz` from the sample repository, in memory
and on file. -/
theorem Delete_absent_id_witness :
    (∀ t ∈ sampleRepo.tasks, t.ID ≠ "zz") ∧
    MemoryTaskRepository.Delete sampleRepo "zz" = (some (.notFound "zz"), sampleRepo) ∧
    FileTaskRepository.Delete sampleFileRepo "zz" = (some (.notFound "zz"), sampleFileRepo) :=
  ⟨by decide, (Delete_absent_id "zz").1 sampleRepo (by decide),
    (Delete_absent_id "zz").2 sampleFileRepo (by decide)⟩

/-- C8: on the in-memory backend, `Update t` fails with the not-found error and
leaves the repository as it was when no stored task has the id of `t`; when one
has, it succeeds, `GetByID` of that id then returns `t`, and `GetByID` of every
other id returns what it returned before. -/
theorem Update_memory (r : MemoryTaskRepository) (t : Task) :
    ((∀ x ∈ r.tasks, x.ID ≠ t.ID) →
        MemoryTaskRepository.Update r t = (some (.notFound t.ID), r)) ∧
    ((∃ x ∈ r.tasks, x.ID = t.ID) →
        ∃ r', MemoryTaskRepository.Update r t = (none, r') ∧
          MemoryTaskRepository.GetByID r' t.ID = .ok t ∧
          ∀ id, id ≠ t.ID →
            MemoryTaskRepository.GetByID r' id = MemoryTaskRepository.GetByID r id) := by
  constructor
  · intro h
    unfold MemoryTaskRepository.Update
    rw [TaskMap.lookup_eq_none.mpr h]
  · rintro ⟨x, hx, hxid⟩
    have hsome : (TaskMap.lookup r.tasks t.ID).isSome = true :=
      TaskMap.lookup_isSome.mpr (List.mem_map.mpr ⟨x, hx, hxid⟩)
    refine ⟨{ tasks := TaskMap.store r.tasks t }, ?_, ?_, ?_⟩
    · unfold MemoryTaskRepository.Update
      cases h : TaskMap.lookup r.tasks t.ID with
      | none => simp [h] at hsome
      | some y => rfl
    · unfold MemoryTaskRepository.GetByID
      simp only [TaskMap.lookup_store_self]
    · intro id hid
      unfold MemoryTaskRepository.GetByID
      simp only [TaskMap.lookup_store_other r.tasks t hid]

/-- C8 (witness): updating the sample task `a1`, and a task with the unknown
id `zz`, in the sample repository. -/
theorem Update_memory_witness :
    ((∀ x ∈ sampleRepo.tasks, x.ID ≠ "zz") ∧
      MemoryTaskRepository.Update sampleRepo { sampleDue with ID := "zz" } =
        (some (.notFound "zz"), sampleRepo)) ∧
    ((∃ x ∈ sampleRepo.tasks, x.ID = "a1") ∧
      ∃ r', MemoryTaskRepository.Update sampleRepo { sampleDue with Title := "pay bills" } =
          (none, r') ∧
        MemoryTaskRepository.GetByID r' "a1" = .ok { sampleDue with Title := "pay bills" } ∧
        ∀ id, id ≠ "a1" →
          MemoryTaskRepository.GetByID r' id = MemoryTaskRepository.GetByID sampleRepo id) :=
  ⟨⟨by decide, (Update_memory sampleRepo { sampleDue with ID := "zz" }).1 (by decide)⟩,
    ⟨by decide, (Update_memory sampleRepo { sampleDue with Title := "pay bills" }).2
      (by decide)⟩⟩

/-- C9: on the in-memory backend, `GetAll` returns a rearrangement of the
stored tasks (each of them once, nothing else) in which no entry was created
before an entry that follows it; in particular not before the next one. -/
theorem GetAll_newest_first (r : MemoryTaskRepository) :
    ∃ out, MemoryTaskRepository.GetAll r = .ok out ∧ out.Perm r.tasks ∧
      out.Pairwise (fun a b => b.CreatedAt ≤ a.CreatedAt) ∧
      out.Chain' (fun a b => b.CreatedAt ≤ a.CreatedAt) := by
  have hp : (sortSlice newestFirst r.tasks).Pairwise (fun a b => b.CreatedAt ≤ a.CreatedAt) := by
    refine (sortSlice_pairwise strictWeak_newestFirst r.tasks).imp ?_
    intro a b hab
    simp only [newestFirst, Time.After, decide_eq_false_iff_not, not_lt] at hab
    exact hab
  exact ⟨_, rfl, sortSlice_perm _ _, hp, List.Pairwise.chain' hp⟩

/-- The range test of the in-memory and the file-backed `GetByDateRange`:
strictly after `frm` and strictly before `upto`. -/
theorem mem_GetByDateRange_memory (r : MemoryTaskRepository) (frm upto : Time)
    (t : Task) :
    (∃ out, MemoryTaskRepository.GetByDateRange r frm upto = .ok out ∧ t ∈ out) ↔
      (t ∈ r.tasks ∧ frm < t.CreatedAt ∧ t.CreatedAt < upto) := by
  unfold MemoryTaskRepository.GetByDateRange
  simp [mem_sortSlice, Time.After, Time.Before]

/-- The range test of the relational `GetByDateRange`: from `frm` to `upto`,
both included. -/
theorem mem_GetByDateRange_postgres (r : PostgresTaskRepository)
    (frm upto : Time) (t : Task) :
    (∃ out, PostgresTaskRepository.GetByDateRange r frm upto = .ok out ∧ t ∈ out) ↔
      (t ∈ r.rows ∧ frm ≤ t.CreatedAt ∧ t.CreatedAt ≤ upto) := by
  unfold PostgresTaskRepository.GetByDateRange PostgresTaskRepository.queryTasks
    PostgresTaskRepository.orderByCreatedAtDesc
  simp [mem_sortSlice]

/-- C10 (the code at the failing input): a task created at instant 10 and the
range from 10 to 20. The in-memory and the file-backed `GetByDateRange` leave
the task out; the relational one, whose `BETWEEN` includes both ends, returns
it, also when the range ends at the creation time. -/
theorem GetByDateRange_backends_differ :
    MemoryTaskRepository.GetByDateRange { tasks := [sampleDue] } 10 20 = .ok [] ∧
    FileTaskRepository.GetByDateRange { tasks := [sampleDue], disk := sampleDisk } 10 20 =
      .ok [] ∧
    PostgresTaskRepository.GetByDateRange { rows := [sampleDue] } 10 20 = .ok [sampleDue] ∧
    MemoryTaskRepository.GetByDateRange { tasks := [sampleDue] } 0 10 = .ok [] ∧
    PostgresTaskRepository.GetByDateRange { rows := [sampleDue] } 0 10 = .ok [sampleDue] := by
  refine ⟨rfl, rfl, rfl, rfl, rfl⟩

/-- The window test of `GetTodayTasks` on the in-memory backend: strictly after
the start of the day and strictly before its end. -/
theorem mem_GetTodayTasks_memory (r : MemoryTaskRepository) (now : Time) (loc : Location)
    (t : Task) :
    (∃ out, TaskService.GetTodayTasks MemoryTaskRepository.backend r now loc = .ok out ∧
        t ∈ out) ↔
      (t ∈ r.tasks ∧ ∃ d, t.DueDate = some d ∧ dayStart loc now < d ∧
        d < dayStart loc now + 24 * Hour) := by
  have hall : MemoryTaskRepository.backend.GetAll r = .ok (sortSlice newestFirst r.tasks) := rfl
  unfold TaskService.GetTodayTasks
  simp only [hall]
  cases hd : t.DueDate with
  | none => simp [hd]
  | some d => simp [hd, mem_sortSlice, Time.After, Time.Before, Time.Add]

/-- C11 (the code at the failing input): at instant 86400000000005 in UTC the
current day starts at 86400000000000; a stored task due at that very instant is
left out of `GetTodayTasks`, while it is returned once due one nanosecond later. -/
theorem GetTodayTasks_excludes_start_of_day :
    dayStart { offset := 0 } 86400000000005 = 86400000000000 ∧
    sampleMidnight.DueDate = some 86400000000000 ∧
    TaskService.GetTodayTasks MemoryTaskRepository.backend { tasks := [sampleMidnight] }
      86400000000005 { offset := 0 } = .ok [] ∧
    TaskService.GetTodayTasks MemoryTaskRepository.backend
      { tasks := [{ sampleMidnight with DueDate := some 86400000000001 }] }
      86400000000005 { offset := 0 } =
        .ok [{ sampleMidnight with DueDate := some 86400000000001 }] := by
  refine ⟨by decide, rfl, rfl, rfl⟩

/-- C12: `IsOverdue` holds exactly of a task that has a due date strictly
before `now` and a status other than completed; and over every backend
`GetOverdueTasks` returns the tasks of `GetAll` for which it holds, in the
order of `GetAll`. -/
theorem IsOverdue_iff_and_GetOverdueTasks {σ : Type} (repo : TaskRepository σ) (s : σ)
    (now : Time) :
    (∀ t : Task, t.IsOverdue now = true ↔
        ∃ d, t.DueDate = some d ∧ t.Status ≠ CompletedTask ∧ d < now) ∧
    (∀ allTasks, repo.GetAll s = .ok allTasks →
      ∃ out, TaskService.GetOverdueTasks repo s now = .ok out ∧
        out = allTasks.filter (fun t => t.IsOverdue now) ∧
        out.Sublist allTasks ∧
        ∀ t, t ∈ out ↔
          (t ∈ allTasks ∧ ∃ d, t.DueDate = some d ∧ t.Status ≠ CompletedTask ∧ d < now)) := by
  have hiff : ∀ t : Task, t.IsOverdue now = true ↔
      ∃ d, t.DueDate = some d ∧ t.Status ≠ CompletedTask ∧ d < now := by
    intro t
    unfold Task.IsOverdue
    cases hd : t.DueDate with
    | none => simp
    | some d =>
      by_cases hs : t.Status = CompletedTask
      · simp [hs]
      · simp [hs, Time.After]
  refine ⟨hiff, fun allTasks hall => ?_⟩
  refine ⟨allTasks.filter (fun t => t.IsOverdue now), ?_, rfl, List.filter_sublist _, ?_⟩
  · unfold TaskService.GetOverdueTasks
    rw [hall]
  · intro t
    rw [List.mem_filter, hiff]

/-- C12 (witness): the overdue tasks of the sample repository at instant 100. -/
theorem IsOverdue_iff_and_GetOverdueTasks_witness :
    MemoryTaskRepository.backend.GetAll sampleRepo =
        .ok [sampleLater, sampleDone, sampleOpen, sampleDue] ∧
    ∃ out, TaskService.GetOverdueTasks MemoryTaskRepository.backend sampleRepo 100 = .ok out ∧
      out = [sampleLater, sampleDone, sampleOpen, sampleDue].filter (fun t => t.IsOverdue 100) ∧
      out.Sublist [sampleLater, sampleDone, sampleOpen, sampleDue] ∧
      ∀ t, t ∈ out ↔
        (t ∈ [sampleLater, sampleDone, sampleOpen, sampleDue] ∧
          ∃ d, t.DueDate = some d ∧ t.Status ≠ CompletedTask ∧ d < 100) :=
  ⟨rfl, (IsOverdue_iff_and_GetOverdueTasks MemoryTaskRepository.backend sampleRepo 100).2
    [sampleLater, sampleDone, sampleOpen, sampleDue] rfl⟩

/-- C13 (counterexample): with a blank title and an id that is not stored,
`UpdateTask` fails with the not-found error of `GetByID`, not with the
empty-title error. -/
theorem UpdateTask_blank_title_unknown_id :
    TrimSpace " " = "" ∧
    (TaskService.UpdateTask MemoryTaskRepository.backend sampleRepo "zz" " " "d" 100).1 =
      .error (.notFound "zz") ∧
    (TaskService.UpdateTask MemoryTaskRepository.backend sampleRepo "zz" " " "d" 100).1 ≠
      .error .emptyTitle := by
  refine ⟨by decide, rfl, ?_⟩
  intro h
  have h2 : (TaskService.UpdateTask MemoryTaskRepository.backend sampleRepo "zz" " " "d" 100).1 =
      .error (.notFound "zz") := rfl
  rw [h2] at h
  cases h

/-- C13 (amended): over every backend, `UpdateTask` with a title that is empty
after trimming first calls `GetByID`; when that finds a task the result is the
empty-title error, when it fails the result is its error, and in both cases no
further repository method is called and the state handed back is the state
given. -/
theorem UpdateTask_blank_title {σ : Type} (repo : TaskRepository σ) (s : σ)
    (id title description : String) (now : Time) (h : TrimSpace title = "") :
    (∀ task, repo.GetByID s id = .ok task →
        TaskService.UpdateTask repo s id title description now = (.error .emptyTitle, s)) ∧
    (∀ err, repo.GetByID s id = .error err →
        TaskService.UpdateTask repo s id title description now = (.error err, s)) := by
  constructor
  · intro task hg
    unfold TaskService.UpdateTask
    rw [hg]
    simp [h]
  · intro err hg
    unfold TaskService.UpdateTask
    rw [hg]

/-- C13 (witness): a blank title for the stored id `a1` and for the unknown id
`zz`, on the sample repository. -/
theorem UpdateTask_blank_title_witness :
    TrimSpace " " = "" ∧
    TaskService.UpdateTask MemoryTaskRepository.backend sampleRepo "a1" " " "d" 100 =
      (.error .emptyTitle, sampleRepo) ∧
    TaskService.UpdateTask MemoryTaskRepository.backend sampleRepo "zz" " " "d" 100 =
      (.error (.notFound "zz"), sampleRepo) :=
  ⟨by decide,
    (UpdateTask_blank_title MemoryTaskRepository.backend sampleRepo "a1" " " "d" 100
      (by decide)).1 sampleDue rfl,
    (UpdateTask_blank_title MemoryTaskRepository.backend sampleRepo "zz" " " "d" 100
      (by decide)).2 (.notFound "zz") rfl⟩

/-! ## Lemmas on the snapshot file -/

theorem TaskMap.uniqueIDs_of_perm {l l' : TaskMap} (h : l.Perm l')
    (hu : TaskMap.UniqueIDs l) : TaskMap.UniqueIDs l' := by
  unfold TaskMap.UniqueIDs at *
  exact ((h.map (fun t => t.ID)).nodup_iff).mp hu

theorem TaskMap.lookup_of_perm {l l' : TaskMap} (h : l.Perm l') (hu : TaskMap.UniqueIDs l)
    (id : String) : TaskMap.lookup l id = TaskMap.lookup l' id := by
  cases hl : TaskMap.lookup l id with
  | none =>
    symm
    rw [TaskMap.lookup_eq_none] at hl ⊢
    intro t ht
    exact hl t (h.mem_iff.mpr ht)
  | some t =>
    obtain ⟨hmem, hid⟩ := TaskMap.lookup_eq_some hl
    have := TaskMap.lookup_of_mem (TaskMap.uniqueIDs_of_perm h hu) (h.mem_iff.mp hmem)
    rw [hid] at this
    exact this.symm

/-- Storing tasks with fresh, pairwise different ids appends them in order. -/
theorem TaskMap.foldl_store_fresh (l acc : TaskMap) (hu : TaskMap.UniqueIDs l)
    (hfresh : ∀ t ∈ l, ∀ a ∈ acc, a.ID ≠ t.ID) :
    l.foldl TaskMap.store acc = acc ++ l := by
  induction l generalizing acc with
  | nil => simp
  | cons x xs ih =>
    unfold TaskMap.UniqueIDs at hu
    simp only [List.map_cons, List.nodup_cons, List.mem_map, not_exists, not_and] at hu
    have hx : TaskMap.lookup acc x.ID = none :=
      TaskMap.lookup_eq_none.mpr (fun a ha => hfresh x (List.mem_cons_self _ _) a ha)
    have hs : TaskMap.store acc x = acc ++ [x] := by
      unfold TaskMap.store
      rw [hx]
      simp
    rw [List.foldl_cons, hs, ih (acc ++ [x]) hu.2]
    · simp
    · intro t ht a ha
      rcases List.mem_append.mp ha with ha | ha
      · exact hfresh t (List.mem_cons_of_mem _ ht) a ha
      · rw [List.mem_singleton.mp ha]
        exact fun h => hu.1 t ht h.symm

theorem TaskMap.uniqueIDs_store (m : TaskMap) (t : Task) (hu : TaskMap.UniqueIDs m) :
    TaskMap.UniqueIDs (TaskMap.store m t) := by
  unfold TaskMap.store
  split
  · unfold TaskMap.UniqueIDs at *
    have : (m.map (fun x => if x.ID == t.ID then t else x)).map (fun x => x.ID) =
        m.map (fun x => x.ID) := by
      rw [List.map_map]
      apply List.map_congr_left
      intro x _
      by_cases hx : x.ID = t.ID
      · simp [hx]
      · simp [hx]
    rw [this]
    exact hu
  · rename_i hn
    have hnone : TaskMap.lookup m t.ID = none := by
      cases h : TaskMap.lookup m t.ID with
      | none => rfl
      | some x => simp [h] at hn
    unfold TaskMap.UniqueIDs at *
    rw [List.map_append, List.nodup_append]
    refine ⟨hu, by simp, ?_⟩
    intro a ha hb
    obtain ⟨x, hx, hxa⟩ := List.mem_map.mp ha
    simp only [List.map_cons, List.map_nil, List.mem_singleton] at hb
    exact TaskMap.lookup_eq_none.mp hnone x hx (hxa.trans hb)

theorem TaskMap.uniqueIDs_remove (m : TaskMap) (id : String) (hu : TaskMap.UniqueIDs m) :
    TaskMap.UniqueIDs (TaskMap.remove m id) := by
  unfold TaskMap.UniqueIDs TaskMap.remove at *
  exact hu.sublist ((List.filter_sublist m).map _)

/-- Opening a repository on a snapshot that holds the sorted tasks of a map
loads those tasks. -/
theorem NewFileTaskRepository_of_saved (tasks : TaskMap) (hu : TaskMap.UniqueIDs tasks)
    (disk : Disk) (hd : disk.canonical = some (.records (sortSlice oldestFirst tasks))) :
    NewFileTaskRepository disk =
      .ok { tasks := sortSlice oldestFirst tasks, disk := disk } := by
  unfold NewFileTaskRepository FileTaskRepository.loadFromFile
  simp only [hd, Unmarshal]
  rw [TaskMap.foldl_store_fresh _ []
    (TaskMap.uniqueIDs_of_perm (sortSlice_perm oldestFirst tasks).symm hu) (by simp)]
  simp

/-- `json.MarshalIndent` succeeds on tasks whose times can all be written. -/
theorem MarshalIndent_of_marshalable (tasks : List Task)
    (h : ∀ t ∈ tasks, Task.marshalable t = true) :
    MarshalIndent tasks = .ok (.records tasks) := by
  unfold MarshalIndent
  rw [if_pos (List.all_eq_true.mpr h)]

/-- `json.MarshalIndent` either writes the records or fails. -/
theorem MarshalIndent_ok_or_error (tasks : List Task) :
    MarshalIndent tasks = .ok (.records tasks) ∨ MarshalIndent tasks = .error .io := by
  unfold MarshalIndent
  split
  · exact Or.inl rfl
  · exact Or.inr rfl

/-- What `saveToFile` does once `json.MarshalIndent` has failed. -/
theorem saveToFile_of_marshal_error (r : FileTaskRepository) (err : TaskError)
    (h : MarshalIndent (sortSlice oldestFirst r.tasks) = .error err) :
    FileTaskRepository.saveToFile r = (some err, r) := by
  unfold FileTaskRepository.saveToFile
  simp only [h]

/-- What `saveToFile` does once `json.MarshalIndent` has produced `data`. -/
theorem saveToFile_of_marshal_ok (r : FileTaskRepository) (data : FileData)
    (h : MarshalIndent (sortSlice oldestFirst r.tasks) = .ok data) :
    FileTaskRepository.saveToFile r =
      if r.disk.writeFails then
        (some .io, { r with disk := { r.disk with temp := some .truncated } })
      else if r.disk.renameFails then
        (some .io, { r with disk := { r.disk with temp := some data } })
      else
        (none, { r with disk := { r.disk with canonical := some data, temp := none } }) := by
  unfold FileTaskRepository.saveToFile
  simp only [h]

/-- C14 (counterexample): the repository reached from an empty data directory
by `Create` of a task and `Update` of it to a due date in the year 10000. The
`Create` saves; the `Update` and a further `saveToFile` fail though write and
rename would go through, and a new repository opened on the files holds the
task with the due date of before the `Update`. -/
theorem saveToFile_fails_on_year_10000 :
    (FileTaskRepository.Create { tasks := [], disk := sampleEmptyDisk } sampleMidnight).1 =
      none ∧
    sampleFarRepo.tasks = [sampleFarFuture] ∧
    TaskMap.UniqueIDs sampleFarRepo.tasks ∧
    (sampleFarRepo.disk.writeFails = false ∧ sampleFarRepo.disk.renameFails = false) ∧
    FileTaskRepository.saveToFile sampleFarRepo = (some .io, sampleFarRepo) ∧
    NewFileTaskRepository (FileTaskRepository.saveToFile sampleFarRepo).2.disk =
      .ok { tasks := [sampleMidnight], disk := sampleFarRepo.disk } ∧
    FileTaskRepository.GetByID sampleFarRepo "e5" = .ok sampleFarFuture ∧
    FileTaskRepository.GetByID { tasks := [sampleMidnight], disk := sampleFarRepo.disk } "e5" =
      .ok sampleMidnight ∧
    sampleMidnight.DueDate ≠ sampleFarFuture.DueDate := by
  refine ⟨rfl, rfl, by decide, ⟨rfl, rfl⟩, rfl, rfl, rfl, rfl, by decide⟩

/-- C14 (amended): for a file-backed repository whose map has unique ids (as
every map built by create, update and delete calls has), whose tasks have all
their times within the years 0 to 9999, and whose write and rename go through,
`saveToFile` succeeds, and a new repository opened on the file system it leaves
holds the same tasks: a rearrangement of the stored ones, so that `GetByID`
returns for every id what it returned before. -/
theorem saveToFile_then_load (r : FileTaskRepository) (hu : TaskMap.UniqueIDs r.tasks)
    (hm : ∀ t ∈ r.tasks, Task.marshalable t = true)
    (hw : r.disk.writeFails = false) (hr : r.disk.renameFails = false) :
    ∃ r1 r2, FileTaskRepository.saveToFile r = (none, r1) ∧
      NewFileTaskRepository r1.disk = .ok r2 ∧
      r2.tasks.Perm r.tasks ∧
      ∀ id, FileTaskRepository.GetByID r2 id = FileTaskRepository.GetByID r id := by
  have hok : MarshalIndent (sortSlice oldestFirst r.tasks) =
      .ok (.records (sortSlice oldestFirst r.tasks)) :=
    MarshalIndent_of_marshalable _ (fun t ht => hm t ((mem_sortSlice _ _ _).mp ht))
  refine ⟨{ r with disk := { r.disk with
      canonical := some (.records (sortSlice oldestFirst r.tasks)), temp := none } },
    { tasks := sortSlice oldestFirst r.tasks, disk := { r.disk with
      canonical := some (.records (sortSlice oldestFirst r.tasks)), temp := none } },
    ?_, ?_, sortSlice_perm _ _, ?_⟩
  · rw [saveToFile_of_marshal_ok r _ hok]
    simp [hw, hr]
  · exact NewFileTaskRepository_of_saved r.tasks hu _ rfl
  · intro id
    unfold FileTaskRepository.GetByID
    simp only
    rw [TaskMap.lookup_of_perm (sortSlice_perm oldestFirst r.tasks).symm hu id]

/-- C14 (witness): saving the sample file-backed repository and opening it
again. -/
theorem saveToFile_then_load_witness :
    TaskMap.UniqueIDs sampleFileRepo.tasks ∧
    (∀ t ∈ sampleFileRepo.tasks, Task.marshalable t = true) ∧
    ∃ r1 r2, FileTaskRepository.saveToFile sampleFileRepo = (none, r1) ∧
      NewFileTaskRepository r1.disk = .ok r2 ∧
      r2.tasks.Perm sampleFileRepo.tasks ∧
      ∀ id, FileTaskRepository.GetByID r2 id = FileTaskRepository.GetByID sampleFileRepo id :=
  ⟨by decide, by decide,
    saveToFile_then_load sampleFileRepo (by decide) (by decide) rfl rfl⟩

/-- C15: when the write of the temporary file fails, `saveToFile` returns an
error and the snapshot file holds what it held; and whenever `saveToFile`
leaves the snapshot file with another content, the write and the rename went
through and it returned no error. -/
theorem saveToFile_canonical (r : FileTaskRepository) :
    (r.disk.writeFails = true →
      (FileTaskRepository.saveToFile r).1 = some .io ∧
        (FileTaskRepository.saveToFile r).2.disk.canonical = r.disk.canonical) ∧
    ((FileTaskRepository.saveToFile r).2.disk.canonical ≠ r.disk.canonical →
      r.disk.writeFails = false ∧ r.disk.renameFails = false ∧
        (FileTaskRepository.saveToFile r).1 = none) := by
  rcases MarshalIndent_ok_or_error (sortSlice oldestFirst r.tasks) with hok | herr
  · rw [saveToFile_of_marshal_ok r _ hok]
    cases hw : r.disk.writeFails <;> cases hr : r.disk.renameFails <;> simp
  · rw [saveToFile_of_marshal_error r _ herr]
    simp

/-- C15 (witness): saving the sample repository on the file system whose write
fails. -/
theorem saveToFile_canonical_witness :
    sampleFailingRepo.disk.writeFails = true ∧
    (FileTaskRepository.saveToFile sampleFailingRepo).1 = some .io ∧
    (FileTaskRepository.saveToFile sampleFailingRepo).2.disk.canonical =
      sampleFailingRepo.disk.canonical :=
  ⟨rfl, (saveToFile_canonical sampleFailingRepo).1 rfl⟩

/-- C16 (counterexample): the sample file-backed repository on the file system
whose write fails. Before `Create` a repository opened on the files holds the
stored tasks; `Create` returns an error; afterwards the map holds five tasks and
a repository opened on the files the four of before. -/
theorem Create_write_failure_breaks_sync :
    (∃ r2, NewFileTaskRepository sampleFailingRepo.disk = .ok r2 ∧
      r2.tasks.Perm sampleFailingRepo.tasks) ∧
    (FileTaskRepository.Create sampleFailingRepo sampleMidnight).1 = some .io ∧
    ¬ ∃ r2, NewFileTaskRepository
        (FileTaskRepository.Create sampleFailingRepo sampleMidnight).2.disk = .ok r2 ∧
      r2.tasks.Perm (FileTaskRepository.Create sampleFailingRepo sampleMidnight).2.tasks := by
  refine ⟨⟨_, rfl, List.Perm.refl _⟩, rfl, ?_⟩
  rintro ⟨r2, h, hp⟩
  have h2 : NewFileTaskRepository
      (FileTaskRepository.Create sampleFailingRepo sampleMidnight).2.disk =
      .ok { tasks := [sampleDue, sampleOpen, sampleDone, sampleLater],
            disk := (FileTaskRepository.Create sampleFailingRepo sampleMidnight).2.disk } := rfl
  rw [h2] at h
  have h3 := Except.ok.inj h
  rw [← h3] at hp
  have := hp.length_eq
  exact absurd this (by decide)

/-- C16 (amended): for a file-backed repository whose map has unique ids and
is held by the snapshot file, after a `Create`, `Update` or `Delete` that
returns no error or the not-found error the snapshot file holds the tasks of the
map again; a call that returns the error of a failed save leaves the snapshot
file with what it held. -/
theorem file_mutation_keeps_sync (r : FileTaskRepository) (hu : TaskMap.UniqueIDs r.tasks)
    (hsync : ∃ r2, NewFileTaskRepository r.disk = .ok r2 ∧ r2.tasks.Perm r.tasks)
    (task : Task) (id : String) (out : Option TaskError × FileTaskRepository)
    (hout : out = FileTaskRepository.Create r task ∨ out = FileTaskRepository.Update r task ∨
      out = FileTaskRepository.Delete r id) :
    ((out.1 = none ∨ ∃ x, out.1 = some (.notFound x)) →
      ∃ r2, NewFileTaskRepository out.2.disk = .ok r2 ∧ r2.tasks.Perm out.2.tasks) ∧
    (out.1 = some .io → out.2.disk.canonical = r.disk.canonical) := by
  -- what `saveToFile` does after the map has taken the mutation
  have hsave : ∀ tasks : TaskMap, TaskMap.UniqueIDs tasks →
      (((FileTaskRepository.saveToFile { r with tasks := tasks }).1 = none ∨
          ∃ x, (FileTaskRepository.saveToFile { r with tasks := tasks }).1 =
            some (.notFound x)) →
        ∃ r2, NewFileTaskRepository
            (FileTaskRepository.saveToFile { r with tasks := tasks }).2.disk = .ok r2 ∧
          r2.tasks.Perm (FileTaskRepository.saveToFile { r with tasks := tasks }).2.tasks) ∧
      ((FileTaskRepository.saveToFile { r with tasks := tasks }).1 = some .io →
        (FileTaskRepository.saveToFile { r with tasks := tasks }).2.disk.canonical =
          r.disk.canonical) := by
    intro tasks hut
    rcases MarshalIndent_ok_or_error (sortSlice oldestFirst tasks) with hok | herr
    · rw [saveToFile_of_marshal_ok { r with tasks := tasks } _ hok]
      cases hw : r.disk.writeFails <;> cases hr : r.disk.renameFails <;>
        simp only [hw, hr, Bool.false_eq_true, if_false, if_true]
      · refine ⟨fun _ => ⟨_, NewFileTaskRepository_of_saved tasks hut _ rfl,
          sortSlice_perm _ _⟩, fun h => by simp at h⟩
      · refine ⟨fun h => ?_, fun _ => trivial⟩
        rcases h with h | ⟨x, h⟩ <;> simp at h
      · refine ⟨fun h => ?_, fun _ => trivial⟩
        rcases h with h | ⟨x, h⟩ <;> simp at h
      · refine ⟨fun h => ?_, fun _ => trivial⟩
        rcases h with h | ⟨x, h⟩ <;> simp at h
    · rw [saveToFile_of_marshal_error { r with tasks := tasks } _ herr]
      refine ⟨fun h => ?_, fun _ => rfl⟩
      rcases h with h | ⟨x, h⟩ <;> simp at h
  rcases hout with h | h | h
  · rw [h]
    exact hsave _ (TaskMap.uniqueIDs_store r.tasks task hu)
  · rw [h]
    unfold FileTaskRepository.Update
    cases hl : TaskMap.lookup r.tasks task.ID with
    | none => exact ⟨fun _ => hsync, fun h => by simp at h⟩
    | some x => exact hsave _ (TaskMap.uniqueIDs_store r.tasks task hu)
  · rw [h]
    unfold FileTaskRepository.Delete
    cases hl : TaskMap.lookup r.tasks id with
    | none => exact ⟨fun _ => hsync, fun h => by simp at h⟩
    | some x => exact hsave _ (TaskMap.uniqueIDs_remove r.tasks id hu)

/-- C16 (witness): creating a fifth task in the sample file-backed repository. -/
theorem file_mutation_keeps_sync_witness :
    TaskMap.UniqueIDs sampleFileRepo.tasks ∧
    (∃ r2, NewFileTaskRepository sampleFileRepo.disk = .ok r2 ∧
      r2.tasks.Perm sampleFileRepo.tasks) ∧
    (FileTaskRepository.Create sampleFileRepo sampleMidnight).1 = none ∧
    ∃ r2, NewFileTaskRepository
        (FileTaskRepository.Create sampleFileRepo sampleMidnight).2.disk = .ok r2 ∧
      r2.tasks.Perm (FileTaskRepository.Create sampleFileRepo sampleMidnight).2.tasks :=
  ⟨by decide, ⟨_, rfl, List.Perm.refl _⟩, rfl,
    (file_mutation_keeps_sync sampleFileRepo (by decide) ⟨_, rfl, List.Perm.refl _⟩
      sampleMidnight "" _ (Or.inl rfl)).1 (Or.inl rfl)⟩

/-- C17 (the code at the failing input): on an empty in-memory repository,
`CreateTask` with title `a` and then `SetTaskPriority` of the new task with the
string `urgent` leave a stored task of priority `urgent`, which is none of low,
medium and high; `CreateTask` itself, asked for priority `urgent`, keeps medium. -/
theorem SetTaskPriority_stores_any_string :
    ((TaskUseCase.SetTaskPriority MemoryTaskRepository.backend
        (TaskUseCase.CreateTask MemoryTaskRepository.backend NewMemoryTaskRepository
          { Title := "a", Description := "", Priority := "", DueDate := none }
          "f6" 1 2 3).2 "f6" "urgent" 5).2.tasks.map (fun t => (t.ID, t.Priority)) =
      [("f6", "urgent")]) ∧
    ("urgent" ≠ LowPriority ∧ "urgent" ≠ MediumPriority ∧ "urgent" ≠ HighPriority) ∧
    ((TaskUseCase.CreateTask MemoryTaskRepository.backend NewMemoryTaskRepository
        { Title := "a", Description := "", Priority := "urgent", DueDate := none }
        "f6" 1 2 3).2.tasks.map (fun t => (t.ID, t.Priority)) = [("f6", "medium")]) := by
  refine ⟨rfl, ⟨by decide, by decide, by decide⟩, rfl⟩

/-- C18: with ranks high 3, medium 2 and low 1, `sortTasks` with field
`priority` rearranges the tasks, every one of them kept, so that the ranks are
non-decreasing along the list for order `asc` and non-increasing for order
`desc`, whatever the priorities of the tasks. -/
theorem sortTasks_priority_sorted (tasks : List Task) :
    (TaskUseCase.priorityOrder HighPriority = 3 ∧ TaskUseCase.priorityOrder MediumPriority = 2 ∧
      TaskUseCase.priorityOrder LowPriority = 1) ∧
    ((TaskUseCase.sortTasks tasks { Field := "priority", Order := "asc" }).Perm tasks ∧
      (TaskUseCase.sortTasks tasks { Field := "priority", Order := "asc" }).Pairwise
        (fun a b =>
          TaskUseCase.priorityOrder a.Priority ≤ TaskUseCase.priorityOrder b.Priority)) ∧
    ((TaskUseCase.sortTasks tasks { Field := "priority", Order := "desc" }).Perm tasks ∧
      (TaskUseCase.sortTasks tasks { Field := "priority", Order := "desc" }).Pairwise
        (fun a b =>
          TaskUseCase.priorityOrder b.Priority ≤ TaskUseCase.priorityOrder a.Priority)) := by
  refine ⟨⟨by decide, by decide, by decide⟩, ⟨TaskUseCase.sortTasks_perm _ _, ?_⟩,
    ⟨TaskUseCase.sortTasks_perm _ _, ?_⟩⟩
  · have hs : TaskUseCase.sortTasks tasks { Field := "priority", Order := "asc" } =
        sortSlice (TaskUseCase.lessPriority "asc") tasks := rfl
    rw [hs]
    refine (sortSlice_pairwise (strictWeak_lessPriority "asc") tasks).imp ?_
    intro a b hab
    have hne : (("asc" : String) == "desc") = false := by decide
    simp only [TaskUseCase.lessPriority, hne, Bool.false_eq_true, if_false,
      decide_eq_false_iff_not, not_lt] at hab
    exact hab
  · have hs : TaskUseCase.sortTasks tasks { Field := "priority", Order := "desc" } =
        sortSlice (TaskUseCase.lessPriority "desc") tasks := rfl
    rw [hs]
    refine (sortSlice_pairwise (strictWeak_lessPriority "desc") tasks).imp ?_
    intro a b hab
    simp only [TaskUseCase.lessPriority, beq_self_eq_true, if_true, gt_iff_lt,
      decide_eq_false_iff_not, not_lt] at hab
    exact hab

/-- C18 (witness): the sample tasks, of priorities high, medium, low and high,
sorted by priority in both orders. -/
theorem sortTasks_priority_sorted_witness :
    TaskUseCase.sortTasks sampleRepo.tasks { Field := "priority", Order := "asc" } =
      [sampleDone, sampleOpen, sampleDue, sampleLater] ∧
    TaskUseCase.sortTasks sampleRepo.tasks { Field := "priority", Order := "desc" } =
      [sampleDue, sampleLater, sampleOpen, sampleDone] ∧
    ((TaskUseCase.sortTasks sampleRepo.tasks { Field := "priority", Order := "asc" }).Perm
        sampleRepo.tasks ∧
      (TaskUseCase.sortTasks sampleRepo.tasks { Field := "priority", Order := "asc" }).Pairwise
        (fun a b =>
          TaskUseCase.priorityOrder a.Priority ≤ TaskUseCase.priorityOrder b.Priority)) :=
  ⟨rfl, rfl, (sortTasks_priority_sorted sampleRepo.tasks).2.1⟩

/-- C19: for a priority filter other than `all` and the empty string, the
priority filter of `GetFilteredAndSortedTasks` yields the tasks of the base
list that have that priority, in the order of the base list. -/
theorem filterByPriority_sublist (base : List Task) (priority : String)
    (h1 : priority ≠ "all") (h2 : priority ≠ "") :
    TaskUseCase.filterByPriority base priority =
        base.filter (fun t => decide (t.Priority = priority)) ∧
      (TaskUseCase.filterByPriority base priority).Sublist base ∧
      ∀ t, t ∈ TaskUseCase.filterByPriority base priority ↔
        (t ∈ base ∧ t.Priority = priority) := by
  have he : TaskUseCase.filterByPriority base priority =
      base.filter (fun t => decide (t.Priority = priority)) := by
    rw [TaskUseCase.filterByPriority_eq, if_neg (by simp [h1, h2])]
    apply List.filter_congr
    intro t _
    rfl
  refine ⟨he, ?_, fun t => ?_⟩
  · rw [he]; exact List.filter_sublist _
  · rw [he]; simp

/-- C19 (witness): the filter `high` over the sample tasks, of priorities high,
medium, low and high. -/
theorem filterByPriority_sublist_witness :
    TaskUseCase.filterByPriority [sampleDue, sampleOpen, sampleDone, sampleLater] "high" =
      [sampleDue, sampleLater] ∧
    (TaskUseCase.filterByPriority [sampleDue, sampleOpen, sampleDone, sampleLater] "high").Sublist
      [sampleDue, sampleOpen, sampleDone, sampleLater] :=
  ⟨rfl, (filterByPriority_sublist [sampleDue, sampleOpen, sampleDone, sampleLater] "high"
    (by decide) (by decide)).2.1⟩

/-- C20: `sortTasks` with field `due_date` rearranges the tasks, every one of
them kept, so that the due dates of the tasks that have one are non-decreasing
along the list for order `asc` and non-increasing for order `desc`. -/
theorem sortTasks_due_date_sorted (tasks : List Task) :
    ((TaskUseCase.sortTasks tasks { Field := "due_date", Order := "asc" }).Perm tasks ∧
      ((TaskUseCase.sortTasks tasks { Field := "due_date", Order := "asc" }).filterMap
        (fun t => t.DueDate)).Pairwise (fun d e => d ≤ e)) ∧
    ((TaskUseCase.sortTasks tasks { Field := "due_date", Order := "desc" }).Perm tasks ∧
      ((TaskUseCase.sortTasks tasks { Field := "due_date", Order := "desc" }).filterMap
        (fun t => t.DueDate)).Pairwise (fun d e => e ≤ d)) := by
  refine ⟨⟨TaskUseCase.sortTasks_perm _ _, ?_⟩, ⟨TaskUseCase.sortTasks_perm _ _, ?_⟩⟩
  · have hs : TaskUseCase.sortTasks tasks { Field := "due_date", Order := "asc" } =
        sortSlice (TaskUseCase.lessDueDate "asc") tasks := rfl
    rw [hs, List.pairwise_filterMap]
    refine (sortSlice_pairwise (strictWeak_lessDueDate "asc") tasks).imp ?_
    intro a b hab d hd e he
    have hne : (("asc" : String) == "desc") = false := by decide
    simp only [Option.mem_def] at hd he
    simp only [TaskUseCase.lessDueDate, hd, he, hne, Bool.false_eq_true, if_false,
      Time.Before, decide_eq_false_iff_not, not_lt] at hab
    exact hab
  · have hs : TaskUseCase.sortTasks tasks { Field := "due_date", Order := "desc" } =
        sortSlice (TaskUseCase.lessDueDate "desc") tasks := rfl
    rw [hs, List.pairwise_filterMap]
    refine (sortSlice_pairwise (strictWeak_lessDueDate "desc") tasks).imp ?_
    intro a b hab d hd e he
    simp only [Option.mem_def] at hd he
    simp only [TaskUseCase.lessDueDate, hd, he, beq_self_eq_true, if_true,
      Time.After, decide_eq_false_iff_not, not_lt] at hab
    exact hab

/-- C20 (witness): the due dates of the sample tasks after the sort by due
date, in both orders. -/
theorem sortTasks_due_date_sorted_witness :
    (TaskUseCase.sortTasks sampleRepo.tasks { Field := "due_date", Order := "asc" }).filterMap
        (fun t => t.DueDate) = [40, 50, 500] ∧
    (TaskUseCase.sortTasks sampleRepo.tasks { Field := "due_date", Order := "desc" }).filterMap
        (fun t => t.DueDate) = [500, 50, 40] ∧
    ((TaskUseCase.sortTasks sampleRepo.tasks { Field := "due_date", Order := "asc" }).Perm
        sampleRepo.tasks ∧
      ((TaskUseCase.sortTasks sampleRepo.tasks { Field := "due_date", Order := "asc" }).filterMap
        (fun t => t.DueDate)).Pairwise (fun d e => d ≤ e)) :=
  ⟨rfl, rfl, (sortTasks_due_date_sorted sampleRepo.tasks).1⟩

/-- C21: for a sort field other than `priority` and `due_date` (`created`, the
empty string, any other string), `sortTasks` rearranges the tasks, every one of
them kept, so that `CreatedAt` is non-decreasing along the list for order `asc`
and non-increasing for order `desc`. -/
theorem sortTasks_created_sorted (tasks : List Task) (field : String)
    (h1 : field ≠ "priority") (h2 : field ≠ "due_date") :
    ((TaskUseCase.sortTasks tasks { Field := field, Order := "asc" }).Perm tasks ∧
      (TaskUseCase.sortTasks tasks { Field := field, Order := "asc" }).Pairwise
        (fun a b => a.CreatedAt ≤ b.CreatedAt)) ∧
    ((TaskUseCase.sortTasks tasks { Field := field, Order := "desc" }).Perm tasks ∧
      (TaskUseCase.sortTasks tasks { Field := field, Order := "desc" }).Pairwise
        (fun a b => b.CreatedAt ≤ a.CreatedAt)) := by
  have hs : ∀ order : String, TaskUseCase.sortTasks tasks { Field := field, Order := order } =
      sortSlice (TaskUseCase.lessCreated order) tasks := by
    intro order
    unfold TaskUseCase.sortTasks
    simp [h1, h2]
  refine ⟨⟨TaskUseCase.sortTasks_perm _ _, ?_⟩, ⟨TaskUseCase.sortTasks_perm _ _, ?_⟩⟩
  · rw [hs]
    refine (sortSlice_pairwise (strictWeak_lessCreated "asc") tasks).imp ?_
    intro a b hab
    have hne : (("asc" : String) == "desc") = false := by decide
    simp only [TaskUseCase.lessCreated, hne, Bool.false_eq_true, if_false, Time.Before,
      decide_eq_false_iff_not, not_lt] at hab
    exact hab
  · rw [hs]
    refine (sortSlice_pairwise (strictWeak_lessCreated "desc") tasks).imp ?_
    intro a b hab
    simp only [TaskUseCase.lessCreated, beq_self_eq_true, if_true, Time.After,
      decide_eq_false_iff_not, not_lt] at hab
    exact hab

/-- C21 (witness): the sample tasks sorted by the field `created` and by an
unknown field. -/
theorem sortTasks_created_sorted_witness :
    (TaskUseCase.sortTasks sampleRepo.tasks { Field := "created", Order := "desc" } =
      [sampleLater, sampleDone, sampleOpen, sampleDue]) ∧
    (TaskUseCase.sortTasks [sampleDone, sampleDue] { Field := "size", Order := "asc" }).Perm
      [sampleDone, sampleDue] ∧
    (TaskUseCase.sortTasks [sampleDone, sampleDue] { Field := "size", Order := "asc" }).Pairwise
      (fun a b => a.CreatedAt ≤ b.CreatedAt) :=
  ⟨rfl, (sortTasks_created_sorted [sampleDone, sampleDue] "size" (by decide) (by decide)).1⟩

/-- C22: the list that `saveToFile` hands to `json.MarshalIndent` is a
rearrangement of the stored tasks, each of them once, in which no record was
created after a record that follows it, in particular not after the next one.
It is the list serialized: when `json.MarshalIndent` fails on it `saveToFile`
returns that error, when it succeeds and the write goes through its output is
what is found in the file written (the snapshot file, or the temporary file
when the rename failed); for tasks whose times can all be written that content
is the records of the list. -/
theorem saveToFile_records_sorted (r : FileTaskRepository) :
    ∃ records,
      records.Perm r.tasks ∧
      records.Pairwise (fun a b => a.CreatedAt ≤ b.CreatedAt) ∧
      records.Chain' (fun a b => a.CreatedAt ≤ b.CreatedAt) ∧
      (∀ err, MarshalIndent records = .error err →
        FileTaskRepository.saveToFile r = (some err, r)) ∧
      (∀ data, MarshalIndent records = .ok data → r.disk.writeFails = false →
        (if r.disk.renameFails then (FileTaskRepository.saveToFile r).2.disk.temp
          else (FileTaskRepository.saveToFile r).2.disk.canonical) = some data) ∧
      ((∀ t ∈ r.tasks, Task.marshalable t = true) → r.disk.writeFails = false →
        (if r.disk.renameFails then (FileTaskRepository.saveToFile r).2.disk.temp
          else (FileTaskRepository.saveToFile r).2.disk.canonical) =
            some (.records records)) := by
  have hp : (sortSlice oldestFirst r.tasks).Pairwise (fun a b => a.CreatedAt ≤ b.CreatedAt) := by
    refine (sortSlice_pairwise strictWeak_oldestFirst r.tasks).imp ?_
    intro a b hab
    simp only [oldestFirst, Time.Before, decide_eq_false_iff_not, not_lt] at hab
    exact hab
  have hwritten : ∀ data, MarshalIndent (sortSlice oldestFirst r.tasks) = .ok data →
      r.disk.writeFails = false →
      (if r.disk.renameFails then (FileTaskRepository.saveToFile r).2.disk.temp
        else (FileTaskRepository.saveToFile r).2.disk.canonical) = some data := by
    intro data hok hw
    rw [saveToFile_of_marshal_ok r data hok]
    cases hr : r.disk.renameFails <;> simp [hw]
  refine ⟨sortSlice oldestFirst r.tasks, sortSlice_perm _ _, hp, List.Pairwise.chain' hp,
    fun err herr => saveToFile_of_marshal_error r err herr, hwritten, fun hm hw => ?_⟩
  exact hwritten _
    (MarshalIndent_of_marshalable _ (fun t ht => hm t ((mem_sortSlice _ _ _).mp ht))) hw

/-- C22 (witness): the snapshot that saving the sample tasks, held newest
first, leaves. -/
theorem saveToFile_records_sorted_witness :
    (FileTaskRepository.saveToFile
        { tasks := [sampleLater, sampleDone, sampleOpen, sampleDue], disk := sampleDisk }).2.disk.canonical
      = some (.records [sampleDue, sampleOpen, sampleDone, sampleLater]) ∧
    ∃ records,
      records.Perm [sampleLater, sampleDone, sampleOpen, sampleDue] ∧
      records.Pairwise (fun a b => a.CreatedAt ≤ b.CreatedAt) ∧
      records.Chain' (fun a b => a.CreatedAt ≤ b.CreatedAt) ∧
      (if sampleDisk.renameFails then
          (FileTaskRepository.saveToFile
            { tasks := [sampleLater, sampleDone, sampleOpen, sampleDue],
              disk := sampleDisk }).2.disk.temp
        else (FileTaskRepository.saveToFile
            { tasks := [sampleLater, sampleDone, sampleOpen, sampleDue],
              disk := sampleDisk }).2.disk.canonical) = some (.records records) := by
  obtain ⟨records, h1, h2, h3, _, _, h6⟩ := saveToFile_records_sorted
    { tasks := [sampleLater, sampleDone, sampleOpen, sampleDue], disk := sampleDisk }
  exact ⟨rfl, records, h1, h2, h3, h6 (by decide) rfl⟩

/-- C24: whatever the sort field and order, the list after `sortTasks` is a
rearrangement of the list before: of the same length, with every task as often
as before. -/
theorem sortTasks_is_permutation (tasks : List Task) (sortBy : TaskSort) :
    (TaskUseCase.sortTasks tasks sortBy).Perm tasks ∧
    (TaskUseCase.sortTasks tasks sortBy).length = tasks.length ∧
    ∀ t : Task, (TaskUseCase.sortTasks tasks sortBy).count t = tasks.count t :=
  ⟨TaskUseCase.sortTasks_perm tasks sortBy, (TaskUseCase.sortTasks_perm tasks sortBy).length_eq,
    fun t => (TaskUseCase.sortTasks_perm tasks sortBy).count_eq t⟩

theorem TaskUseCase.mem_of_mem_filterByPriority {tasks : List Task} {priority : String}
    {t : Task} (h : t ∈ TaskUseCase.filterByPriority tasks priority) : t ∈ tasks := by
  rw [TaskUseCase.filterByPriority_eq] at h
  split at h
  · exact h
  · exact List.mem_of_mem_filter h

/-- C23: on the in-memory backend with unique task ids, `GetFilteredAndSortedTasks`
with status filter `completed` and date window `overdue` returns the empty
list, whatever the priority filter, the sort spec and the query time. -/
theorem GetFilteredAndSortedTasks_completed_overdue (r : MemoryTaskRepository)
    (hr : TaskMap.UniqueIDs r.tasks) (priority : String) (sort : TaskSort)
    (now : Time) (loc : Location) :
    TaskUseCase.GetFilteredAndSortedTasks MemoryTaskRepository.backend r
      { Status := "completed", Priority := priority, DateType := "overdue" } sort now loc =
        .ok [] := by
  have hbase : TaskService.GetTasksByStatus MemoryTaskRepository.backend r CompletedTask =
      .ok (sortSlice newestFirst (r.tasks.filter (fun task => task.Status == CompletedTask))) :=
    rfl
  have hall : MemoryTaskRepository.backend.GetAll r = .ok (sortSlice newestFirst r.tasks) := rfl
  have hc1 : (("completed" : String) == "active") = false := by decide
  have hd1 : (("overdue" : String) == "today") = false := by decide
  have hd2 : (("overdue" : String) == "week") = false := by decide
  unfold TaskUseCase.GetFilteredAndSortedTasks
  simp only [hc1, hd1, hd2, beq_self_eq_true, if_true, Bool.false_eq_true, if_false, hbase,
    TaskService.GetOverdueTasks, hall]
  -- the working set holds completed tasks, the overdue set none
  have hempty : TaskUseCase.intersectTasks
      (TaskUseCase.filterByPriority
        (sortSlice newestFirst (r.tasks.filter (fun task => task.Status == CompletedTask)))
        priority)
      ((sortSlice newestFirst r.tasks).filter (fun task => task.IsOverdue now)) = [] := by
    rw [List.eq_nil_iff_forall_not_mem]
    intro t ht
    rw [TaskUseCase.mem_intersectTasks_of_unique hr
      (fun x hx => List.mem_of_mem_filter
        ((mem_sortSlice _ _ _).mp (TaskUseCase.mem_of_mem_filterByPriority hx)))
      (fun x hx => (mem_sortSlice _ _ _).mp (List.mem_of_mem_filter hx))] at ht
    obtain ⟨hw, ho⟩ := ht
    have hdone : t.Status = CompletedTask := by
      have := (mem_sortSlice _ _ _).mp (TaskUseCase.mem_of_mem_filterByPriority hw)
      simpa using (List.mem_filter.mp this).2
    have hover : t.IsOverdue now = true := (List.mem_filter.mp ho).2
    unfold Task.IsOverdue at hover
    cases hd : t.DueDate with
    | none => simp [hd] at hover
    | some d => simp [hd, hdone] at hover
  rw [hempty]
  have := (TaskUseCase.sortTasks_perm [] sort).eq_nil
  rw [this]

/-- C23 (witness): the sample repository, asked for the completed overdue tasks
at instant 100. -/
theorem GetFilteredAndSortedTasks_completed_overdue_witness :
    TaskMap.UniqueIDs sampleRepo.tasks ∧
    TaskUseCase.GetFilteredAndSortedTasks MemoryTaskRepository.backend sampleRepo
      { Status := "completed", Priority := "all", DateType := "overdue" }
      { Field := "due_date", Order := "asc" } 100 { offset := 0 } = .ok [] :=
  ⟨by decide, GetFilteredAndSortedTasks_completed_overdue sampleRepo (by decide) "all"
    { Field := "due_date", Order := "asc" } 100 { offset := 0 }⟩

/-- One `ToggleTaskStatus` of a stored task on the in-memory backend: the task
is stored again, marked complete when it was active and active otherwise. -/
theorem TaskUseCase.ToggleTaskStatus_memory (r : MemoryTaskRepository) (id : String) (t : Task)
    (hget : MemoryTaskRepository.GetByID r id = .ok t) (now : Time) :
    ∃ r', TaskUseCase.ToggleTaskStatus MemoryTaskRepository.backend r id now =
        (.ok (if t.Status = ActiveTask then t.MarkComplete now else t.MarkActive now), r') ∧
      MemoryTaskRepository.GetByID r' id =
        .ok (if t.Status = ActiveTask then t.MarkComplete now else t.MarkActive now) := by
  have hlook : TaskMap.lookup r.tasks id = some t := by
    unfold MemoryTaskRepository.GetByID at hget
    cases h : TaskMap.lookup r.tasks id with
    | none => simp [h] at hget
    | some x => simp [h] at hget; rw [hget]
  have hid : t.ID = id := (TaskMap.lookup_eq_some hlook).2
  have hget' : MemoryTaskRepository.backend.GetByID r id = .ok t := hget
  have hupd : ∀ u : Task, u.ID = t.ID →
      MemoryTaskRepository.backend.Update r u = (none, { tasks := TaskMap.store r.tasks u }) := by
    intro u hu
    have hlu : TaskMap.lookup r.tasks u.ID = some t := by rw [hu, hid]; exact hlook
    simp [MemoryTaskRepository.backend, MemoryTaskRepository.Update, hlu]
  have hstored : ∀ u : Task, u.ID = t.ID →
      MemoryTaskRepository.GetByID { tasks := TaskMap.store r.tasks u } id = .ok u := by
    intro u hu
    unfold MemoryTaskRepository.GetByID
    have := TaskMap.lookup_store_self r.tasks u
    rw [hu, hid] at this
    simp only [this]
  unfold TaskUseCase.ToggleTaskStatus TaskService.GetTaskByID
  simp only [hget']
  by_cases hs : t.Status = ActiveTask
  · refine ⟨{ tasks := TaskMap.store r.tasks (t.MarkComplete now) }, ?_, ?_⟩
    · simp only [hs, beq_self_eq_true, if_true]
      unfold TaskService.MarkTaskComplete
      simp only [hget', hupd (t.MarkComplete now) rfl]
    · rw [if_pos hs]
      exact hstored (t.MarkComplete now) rfl
  · refine ⟨{ tasks := TaskMap.store r.tasks (t.MarkActive now) }, ?_, ?_⟩
    · have hb : (t.Status == ActiveTask) = false := by simpa using hs
      simp only [hs, hb, Bool.false_eq_true, if_false]
      unfold TaskService.MarkTaskActive
      simp only [hget', hupd (t.MarkActive now) rfl]
    · rw [if_neg hs]
      exact hstored (t.MarkActive now) rfl

/-- C25: on the in-memory backend, `ToggleTaskStatus` of a stored task whose
status is active or completed succeeds and stores it completed, respectively
active; a second `ToggleTaskStatus` of the same id succeeds and stores it with
its first status again and with the id, title, description, priority, due date
and `CreatedAt` it had at first. -/
theorem ToggleTaskStatus_twice (r : MemoryTaskRepository) (id : String) (t : Task)
    (hget : MemoryTaskRepository.GetByID r id = .ok t)
    (hs : t.Status = ActiveTask ∨ t.Status = CompletedTask) (now1 now2 : Time) :
    ∃ t1 r1, TaskUseCase.ToggleTaskStatus MemoryTaskRepository.backend r id now1 =
        (.ok t1, r1) ∧
      MemoryTaskRepository.GetByID r1 id = .ok t1 ∧
      (t.Status = ActiveTask → t1.Status = CompletedTask) ∧
      (t.Status = CompletedTask → t1.Status = ActiveTask) ∧
      ∃ t2 r2, TaskUseCase.ToggleTaskStatus MemoryTaskRepository.backend r1 id now2 =
          (.ok t2, r2) ∧
        MemoryTaskRepository.GetByID r2 id = .ok t2 ∧
        t2.Status = t.Status ∧ t2.ID = t.ID ∧ t2.Title = t.Title ∧
        t2.Description = t.Description ∧ t2.Priority = t.Priority ∧
        t2.DueDate = t.DueDate ∧ t2.CreatedAt = t.CreatedAt := by
  obtain ⟨r1, h1, g1⟩ := TaskUseCase.ToggleTaskStatus_memory r id t hget now1
  obtain ⟨r2, h2, g2⟩ := TaskUseCase.ToggleTaskStatus_memory r1 id _ g1 now2
  have hca : CompletedTask ≠ ActiveTask := by decide
  refine ⟨_, r1, h1, g1, ?_, ?_, _, r2, h2, g2, ?_⟩
  · intro ha
    rw [if_pos ha]; rfl
  · intro hc
    rw [if_neg (by rw [hc]; exact hca)]; rfl
  · rcases hs with ha | hc
    · simp [ha, Task.MarkComplete, Task.MarkActive, hca]
    · simp [hc, hca, Task.MarkComplete, Task.MarkActive]

/-- C25 (witness): toggling the sample task `a1` twice. -/
theorem ToggleTaskStatus_twice_witness :
    MemoryTaskRepository.GetByID sampleRepo "a1" = .ok sampleDue ∧
    (sampleDue.Status = ActiveTask ∨ sampleDue.Status = CompletedTask) ∧
    ∃ t1 r1, TaskUseCase.ToggleTaskStatus MemoryTaskRepository.backend sampleRepo "a1" 100 =
        (.ok t1, r1) ∧
      MemoryTaskRepository.GetByID r1 "a1" = .ok t1 ∧
      (sampleDue.Status = ActiveTask → t1.Status = CompletedTask) ∧
      (sampleDue.Status = CompletedTask → t1.Status = ActiveTask) ∧
      ∃ t2 r2, TaskUseCase.ToggleTaskStatus MemoryTaskRepository.backend r1 "a1" 200 =
          (.ok t2, r2) ∧
        MemoryTaskRepository.GetByID r2 "a1" = .ok t2 ∧
        t2.Status = sampleDue.Status ∧ t2.ID = sampleDue.ID ∧ t2.Title = sampleDue.Title ∧
        t2.Description = sampleDue.Description ∧ t2.Priority = sampleDue.Priority ∧
        t2.DueDate = sampleDue.DueDate ∧ t2.CreatedAt = sampleDue.CreatedAt :=
  ⟨rfl, Or.inl rfl, ToggleTaskStatus_twice sampleRepo "a1" sampleDue rfl (Or.inl rfl) 100 200⟩

end TodoList
